import Mathlib

/-!
# Game-Server: matchmaking engine and player registry

A shallow embedding of `server/PlayerManager.cpp` and `server/MatchmakingSystem.cpp`.

* `std::unordered_map` is modelled by `UMap`, an association list with unique keys.
* `std::queue` and `std::vector` are modelled by `List` (front of the queue = head).
* `uint64_t` player ids and `size_t` sizes are `Nat`; `int` bounds are `Int`, and the
  conversion `static_cast<size_t>` is the explicit reduction modulo `2 ^ 64` (`toSizeT`).
* the random token generator and the steady clock are read through an `Env`.
* the `while` loop of `MatchmakingSystem::process` is run with a fuel bound, and reports
  whether it ran to completion.
* the mutexes and the outbound notifications through `WebSocketServer` are not modelled.
-/

namespace GameServer

/-! ## Finite maps -/

/-- Association list with pairwise distinct keys, the model of `std::unordered_map`. -/
structure UMap (K : Type) (V : Type) where
  entries : List (K × V)
  nodup : (entries.map Prod.fst).Nodup

namespace UMap

variable {K V : Type} [DecidableEq K]

/-- Lookup of a key in a list of entries. -/
def findIn (k : K) : List (K × V) → Option V
  | [] => none
  | e :: es => if e.1 = k then some e.2 else findIn k es

/-- The map without entries. -/
def empty : UMap K V := ⟨[], List.nodup_nil⟩

/-- Model of `m.find(k)`: the value stored under `k`, if any. -/
def find (m : UMap K V) (k : K) : Option V := findIn k m.entries

/-- Model of `m.find(k) != m.end()`. -/
def contains (m : UMap K V) (k : K) : Bool := (m.find k).isSome

/-- Model of `m.size()`. -/
def size (m : UMap K V) : Nat := m.entries.length

/-- Model of `m.erase(k)`. -/
def erase (m : UMap K V) (k : K) : UMap K V :=
  ⟨m.entries.filter (fun e => decide (e.1 ≠ k)),
    ((List.filter_sublist m.entries).map Prod.fst).nodup m.nodup⟩

/-- Model of `m[k] = v`: overwrite the value of an existing key in place, or add the key. -/
def assign (m : UMap K V) (k : K) (v : V) : UMap K V :=
  if h : k ∈ m.entries.map Prod.fst then
    ⟨m.entries.map (fun e => if e.1 = k then (k, v) else e), by
      have hk : (m.entries.map (fun e => if e.1 = k then (k, v) else e)).map Prod.fst
          = m.entries.map Prod.fst := by
        rw [List.map_map]
        apply List.map_congr_left
        intro e _
        by_cases he : e.1 = k <;> simp [he]
      rw [hk]; exact m.nodup⟩
  else
    ⟨m.entries ++ [(k, v)], by
      rw [List.map_append, List.nodup_append]
      refine ⟨m.nodup, by simp, ?_⟩
      intro a ha hb
      simp at hb
      subst hb
      exact h ha⟩

end UMap

/-! ## Data model -/

/-- Record of one connected player (`Player` of `PlayerManager.h`); `latency` holds the
`float` as an uninterpreted value, no arithmetic is done on it. -/
structure Player where
  id : Nat
  username : String
  inMatch : Bool
  currentMatchId : String
  lastPingTime : Nat
  latency : Nat
deriving DecidableEq

/-- One queued matchmaking intent (`MatchmakingRequest`); the bounds are C++ `int`. -/
structure MatchmakingRequest where
  playerId : Nat
  gameMode : String
  minPlayers : Int
  maxPlayers : Int
  timestamp : Nat
deriving DecidableEq

/-- One match record (`Match`). -/
structure Match where
  matchId : String
  players : List Nat
  gameMode : String
  createdAt : Nat
  isActive : Bool
deriving DecidableEq

/-- Conversion `static_cast<size_t>(v)` of an `int` on a 64-bit target. -/
def toSizeT (v : Int) : Nat := (v % 2 ^ 64).toNat

/-! ## PlayerManager -/

/-- State of `PlayerManager`: the directory of connected players. -/
structure PlayerManager where
  m_players : UMap Nat Player
  m_nextPlayerId : Nat

namespace PlayerManager

/-- Constructor `PlayerManager::PlayerManager`. -/
def init : PlayerManager := ⟨UMap.empty, 1⟩

/-- Model of `PlayerManager::addPlayer`. -/
def addPlayer (pm : PlayerManager) (playerId : Nat) : PlayerManager :=
  let player : Player :=
    { id := playerId
      username := "Player" ++ toString playerId
      inMatch := false
      currentMatchId := ""
      lastPingTime := 0
      latency := 0 }
  { pm with m_players := pm.m_players.assign playerId player }

/-- Model of `PlayerManager::removePlayer`. -/
def removePlayer (pm : PlayerManager) (playerId : Nat) : PlayerManager :=
  { pm with m_players := pm.m_players.erase playerId }

/-- Model of `PlayerManager::playerExists`. -/
def playerExists (pm : PlayerManager) (playerId : Nat) : Bool :=
  pm.m_players.contains playerId

/-- Model of `PlayerManager::getPlayer`. -/
def getPlayer (pm : PlayerManager) (playerId : Nat) : Option Player :=
  pm.m_players.find playerId

/-- Model of `PlayerManager::setPlayerUsername`. -/
def setPlayerUsername (pm : PlayerManager) (playerId : Nat) (username : String) :
    PlayerManager :=
  match pm.m_players.find playerId with
  | some p => { pm with m_players := pm.m_players.assign playerId { p with username := username } }
  | none => pm

/-- Model of `PlayerManager::setPlayerInMatch`. -/
def setPlayerInMatch (pm : PlayerManager) (playerId : Nat) (inMatch : Bool) (matchId : String) :
    PlayerManager :=
  match pm.m_players.find playerId with
  | some p =>
    { pm with m_players :=
        pm.m_players.assign playerId { p with inMatch := inMatch, currentMatchId := matchId } }
  | none => pm

/-- Model of `PlayerManager::updatePlayerLatency`. -/
def updatePlayerLatency (pm : PlayerManager) (playerId : Nat) (latency : Nat) : PlayerManager :=
  match pm.m_players.find playerId with
  | some p => { pm with m_players := pm.m_players.assign playerId { p with latency := latency } }
  | none => pm

/-- Model of `PlayerManager::updatePlayerPing`. -/
def updatePlayerPing (pm : PlayerManager) (playerId : Nat) (timestamp : Nat) : PlayerManager :=
  match pm.m_players.find playerId with
  | some p =>
    { pm with m_players := pm.m_players.assign playerId { p with lastPingTime := timestamp } }
  | none => pm

/-- Model of `PlayerManager::getPlayerCount`. -/
def getPlayerCount (pm : PlayerManager) : Nat := pm.m_players.size

end PlayerManager

/-! ## MatchmakingSystem -/

/-- What the engine reads from outside its own state: the token `generateMatchId` returns and
the clock reading of `createMatch`, both indexed by the number of tokens generated so far, and
the order in which a range-for visits the groups of an `unordered_map` (some rearrangement of
its entries). -/
structure Env where
  matchIdAt : Nat → String
  clockAt : Nat → Nat
  visit : List (String × List MatchmakingRequest) → List (String × List MatchmakingRequest)
  visit_perm : ∀ l, (visit l).Perm l

/-- State of `MatchmakingSystem`. `m_playerManager` is the registry the engine points to;
`idsGenerated` is the state of the static generator inside `generateMatchId`. -/
structure MatchmakingSystem where
  m_playerManager : PlayerManager
  m_queue : List MatchmakingRequest
  m_matches : UMap String Match
  m_playerToMatch : UMap Nat String
  idsGenerated : Nat

/-- Outcome of running the matchmaking pass with a bound on loop iterations: the state
reached, the matches handed to `createMatch` so far (oldest first), and whether the pass ran
to its end within the bound. -/
structure Pass where
  sys : MatchmakingSystem
  created : List Match
  finished : Bool

namespace MatchmakingSystem

/-- Constructor `MatchmakingSystem::MatchmakingSystem` over a registry. -/
def init (pm : PlayerManager) : MatchmakingSystem :=
  { m_playerManager := pm
    m_queue := []
    m_matches := UMap.empty
    m_playerToMatch := UMap.empty
    idsGenerated := 0 }

/-- Model of `MatchmakingSystem::queuePlayer`; `now` is the clock reading. -/
def queuePlayer (s : MatchmakingSystem) (now : Nat) (playerId : Nat) (gameMode : String)
    (minPlayers maxPlayers : Int) : MatchmakingSystem :=
  let request : MatchmakingRequest :=
    { playerId := playerId
      gameMode := gameMode
      minPlayers := minPlayers
      maxPlayers := maxPlayers
      timestamp := now }
  { s with m_queue := s.m_queue ++ [request] }

/-- The queue-rebuilding loop shared by `removePlayer` and `process`: pop every request of the
old queue from the front and push it on `newQueue` unless `drop` holds for it. -/
def rebuildQueue (drop : MatchmakingRequest → Bool) :
    List MatchmakingRequest → List MatchmakingRequest → List MatchmakingRequest
  | [], newQueue => newQueue
  | front :: rest, newQueue =>
    rebuildQueue drop rest (if drop front then newQueue else newQueue ++ [front])

/-- Model of `MatchmakingSystem::removePlayer`. -/
def removePlayer (s : MatchmakingSystem) (playerId : Nat) : MatchmakingSystem :=
  let newQueue := rebuildQueue (fun r => decide (r.playerId = playerId)) s.m_queue []
  let s1 := { s with m_queue := newQueue }
  match s1.m_playerToMatch.find playerId with
  | none => s1
  | some matchId =>
    let s2 := { s1 with m_playerToMatch := s1.m_playerToMatch.erase playerId }
    match s2.m_matches.find matchId with
    | none => s2
    | some mt =>
      let players := mt.players.filter (fun q => decide (q ≠ playerId))
      if players.isEmpty then
        { s2 with m_matches := s2.m_matches.erase matchId }
      else
        { s2 with m_matches := s2.m_matches.assign matchId { mt with players := players } }

/-- Model of `MatchmakingSystem::createMatch`; returns the new state and the match built. -/
def createMatch (env : Env) (s : MatchmakingSystem) (players : List Nat) (gameMode : String) :
    MatchmakingSystem × Match :=
  let mt : Match :=
    { matchId := env.matchIdAt s.idsGenerated
      players := players
      gameMode := gameMode
      createdAt := env.clockAt s.idsGenerated
      isActive := true }
  let s1 := { s with idsGenerated := s.idsGenerated + 1
                     m_matches := s.m_matches.assign mt.matchId mt }
  let s2 := players.foldl
    (fun (acc : MatchmakingSystem) playerId =>
      { acc with
        m_playerToMatch := acc.m_playerToMatch.assign playerId mt.matchId
        m_playerManager := acc.m_playerManager.setPlayerInMatch playerId true mt.matchId })
    s1
  (s2, mt)

/-- Model of `MatchmakingSystem::getMatch`. -/
def getMatch (s : MatchmakingSystem) (matchId : String) : Option Match :=
  s.m_matches.find matchId

/-- Model of `MatchmakingSystem::endMatch`. -/
def endMatch (s : MatchmakingSystem) (matchId : String) : MatchmakingSystem :=
  match s.m_matches.find matchId with
  | none => s
  | some mt =>
    let s1 := mt.players.foldl
      (fun (acc : MatchmakingSystem) playerId =>
        { acc with
          m_playerToMatch := acc.m_playerToMatch.erase playerId
          m_playerManager := acc.m_playerManager.setPlayerInMatch playerId false "" })
      s
    { s1 with m_matches := s1.m_matches.erase matchId }

/-- The first loop of `process`: walk the snapshot of the queue and push every request of a
registered player on the vector of its game mode. -/
def groupByMode (pm : PlayerManager) :
    List MatchmakingRequest → UMap String (List MatchmakingRequest) →
      UMap String (List MatchmakingRequest)
  | [], byGameMode => byGameMode
  | request :: tempQueue, byGameMode =>
    if pm.playerExists request.playerId then
      groupByMode pm tempQueue
        (byGameMode.assign request.gameMode
          (((byGameMode.find request.gameMode).getD []) ++ [request]))
    else
      groupByMode pm tempQueue byGameMode

/-- The collecting loop of `process`: scan `requests` from index 0 while the group holds fewer
than `cap` requests, pushing each request whose game mode is `gameMode`. -/
def takeGroup (gameMode : String) (cap : Nat) :
    List MatchmakingRequest → List MatchmakingRequest → List MatchmakingRequest
  | [], matchGroup => matchGroup
  | r :: rest, matchGroup =>
    if matchGroup.length < cap then
      takeGroup gameMode cap rest (if r.gameMode = gameMode then matchGroup ++ [r] else matchGroup)
    else
      matchGroup

/-- The loop removing the matched players from the vector of the game mode: one
`erase(remove_if(...))` per request of the group. -/
def eraseMatched (matchGroup requests : List MatchmakingRequest) : List MatchmakingRequest :=
  matchGroup.foldl
    (fun rs req => rs.filter (fun r => decide (r.playerId ≠ req.playerId))) requests

/-- The `while (requests.size() >= 2)` loop of `process` for one game mode, run for at most
`fuel` iterations. -/
def matchLoop (env : Env) (gameMode : String) :
    Nat → List MatchmakingRequest → MatchmakingSystem → List Match → Pass
  | 0, requests, s, log => ⟨s, log, decide (requests.length < 2)⟩
  | fuel + 1, requests, s, log =>
    if requests.length < 2 then ⟨s, log, true⟩
    else
      match requests.head? with
      | none => ⟨s, log, true⟩
      | some r0 =>
        let minPlayers := r0.minPlayers
        let maxPlayers := r0.maxPlayers
        let matchGroup := takeGroup gameMode (toSizeT maxPlayers) requests []
        if toSizeT minPlayers ≤ matchGroup.length then
          let playerIds := matchGroup.map (fun req => req.playerId)
          let made := createMatch env s playerIds gameMode
          let s1 := made.1
          let mt := made.2
          let requests1 := eraseMatched matchGroup requests
          let newQueue := rebuildQueue
            (fun front => matchGroup.any (fun req => decide (front.playerId = req.playerId)))
            s1.m_queue []
          matchLoop env gameMode fuel requests1 { s1 with m_queue := newQueue } (log ++ [mt])
        else
          ⟨s, log, true⟩

/-- The `for (auto& pair : byGameMode)` loop of `process` over the groups in visiting order;
it stops as soon as one inner loop has not finished within the bound. -/
def matchGroups (env : Env) (fuel : Nat) :
    List (String × List MatchmakingRequest) → MatchmakingSystem → List Match → Pass
  | [], s, log => ⟨s, log, true⟩
  | pair :: others, s, log =>
    let r := matchLoop env pair.1 fuel pair.2 s log
    if r.finished then matchGroups env fuel others r.sys r.created else r

/-- Model of `MatchmakingSystem::process`, every `while` loop bounded by `fuel` iterations. -/
def process (env : Env) (fuel : Nat) (s : MatchmakingSystem) : Pass :=
  if s.m_queue.length < 2 then ⟨s, [], true⟩
  else
    let byGameMode := groupByMode s.m_playerManager s.m_queue UMap.empty
    matchGroups env fuel (env.visit byGameMode.entries) s []

end MatchmakingSystem

/-- The game-mode partition of the queue: the requests of registered players whose game mode
is `g`, in queue order. -/
def modePartition (s : MatchmakingSystem) (g : String) : List MatchmakingRequest :=
  s.m_queue.filter (fun r => s.m_playerManager.playerExists r.playerId && decide (r.gameMode = g))

/-- The values a C++ `int` can hold (32 bits, two's complement). -/
def IsInt (v : Int) : Prop := -2 ^ 31 ≤ v ∧ v < 2 ^ 31

/-! ## Reachable states -/

/-- The tokens `generateMatchId` returns during one matchmaking pass started in `s`. -/
def passTokens (env : Env) (fuel : Nat) (s : MatchmakingSystem) : List String :=
  (List.range ((MatchmakingSystem.process env fuel s).sys.idsGenerated - s.idsGenerated)).map
    (fun i => env.matchIdAt (s.idsGenerated + i))

/-- Every token generated during the pass is fresh: the tokens are pairwise distinct and none
of them is the id of a match that is in the table when the pass starts. -/
def FreshIds (env : Env) (fuel : Nat) (s : MatchmakingSystem) : Prop :=
  (passTokens env fuel s).Nodup ∧
    ∀ tok ∈ passTokens env fuel s, s.m_matches.contains tok = false

/-- States reached from `s0` by completed calls of the registry operations `addPlayer` and
`removePlayer` and of the engine operations `queuePlayer`, `removePlayer`, `process` and
`endMatch`; a pass counts when it ran to its end and generated fresh match ids. -/
inductive ReachableFrom (s0 : MatchmakingSystem) : MatchmakingSystem → Prop
  | start : ReachableFrom s0 s0
  | registryAdd (s : MatchmakingSystem) (playerId : Nat) :
      ReachableFrom s0 s →
      ReachableFrom s0 { s with m_playerManager := s.m_playerManager.addPlayer playerId }
  | registryRemove (s : MatchmakingSystem) (playerId : Nat) :
      ReachableFrom s0 s →
      ReachableFrom s0 { s with m_playerManager := s.m_playerManager.removePlayer playerId }
  | enqueue (s : MatchmakingSystem) (now playerId : Nat) (gameMode : String)
      (minPlayers maxPlayers : Int) :
      ReachableFrom s0 s →
      ReachableFrom s0 (s.queuePlayer now playerId gameMode minPlayers maxPlayers)
  | cancel (s : MatchmakingSystem) (playerId : Nat) :
      ReachableFrom s0 s → ReachableFrom s0 (s.removePlayer playerId)
  | pass (env : Env) (fuel : Nat) (s : MatchmakingSystem) :
      ReachableFrom s0 s →
      (MatchmakingSystem.process env fuel s).finished = true →
      FreshIds env fuel s →
      ReachableFrom s0 (MatchmakingSystem.process env fuel s).sys
  | finish (s : MatchmakingSystem) (matchId : String) :
      ReachableFrom s0 s → ReachableFrom s0 (s.endMatch matchId)

/-- Every entry `p -> M` of the player-to-match index points to a match that is in the match
table and lists `p` among its members. -/
def IndexSound (s : MatchmakingSystem) : Prop :=
  ∀ p M, s.m_playerToMatch.find p = some M →
    ∃ mt, s.m_matches.find M = some mt ∧ p ∈ mt.players

/-- The tokens the generator returns from the state of `s` up to state `K` are absent from the
match table of `s` and pairwise distinct. -/
def FreshUpTo (env : Env) (K : Nat) (s : MatchmakingSystem) : Prop :=
  (∀ n, s.idsGenerated ≤ n → n < K → s.m_matches.find (env.matchIdAt n) = none) ∧
    ∀ n m, s.idsGenerated ≤ n → n < m → m < K → env.matchIdAt n ≠ env.matchIdAt m

/-! ## Concrete states used to exercise the theorems -/

/-- An environment whose k-th match token is `match` followed by `k`, whose clock reads `k`
at the k-th match creation, and which visits the groups in insertion order. -/
def sampleEnv : Env :=
  { matchIdAt := fun n => "match" ++ toString n
    clockAt := fun n => n
    visit := id
    visit_perm := fun l => List.Perm.refl l }

/-- Players 1 and 2 connected, both queued for mode `duel` with the given bounds. -/
def duelQueued (minPlayers maxPlayers : Int) : MatchmakingSystem :=
  ((MatchmakingSystem.init ((PlayerManager.init.addPlayer 1).addPlayer 2)).queuePlayer
    1 1 "duel" minPlayers maxPlayers).queuePlayer 2 2 "duel" minPlayers maxPlayers

/-- Players 1, 2 and 3 connected and queued in that order for mode `duel`, each with
`minPlayers = maxPlayers = 2`. -/
def trioQueued : MatchmakingSystem :=
  (((MatchmakingSystem.init
      (((PlayerManager.init.addPlayer 1).addPlayer 2).addPlayer 3)).queuePlayer
    1 1 "duel" 2 2).queuePlayer 2 2 "duel" 2 2).queuePlayer 3 3 "duel" 2 2

/-- Players 1 and 2 connected; player 1 queued for mode `solo`, player 2 for mode `other`,
each with `minPlayers = maxPlayers = 1`. -/
def soloPair : MatchmakingSystem :=
  ((MatchmakingSystem.init ((PlayerManager.init.addPlayer 1).addPlayer 2)).queuePlayer
    1 1 "solo" 1 1).queuePlayer 2 2 "other" 1 1

/-- Player 1 connected and queued alone for mode `duel` with `minPlayers = 3`,
`maxPlayers = 4`. -/
def loneQueued : MatchmakingSystem :=
  (MatchmakingSystem.init (PlayerManager.init.addPlayer 1)).queuePlayer 1 1 "duel" 3 4

/-- Players 1 to 4 connected; players 1 and 2 queued for mode `idle` with
`minPlayers = maxPlayers = 0`, then players 3 and 4 for mode `duel` with
`minPlayers = maxPlayers = 2`. -/
def idleThenDuel : MatchmakingSystem :=
  ((((MatchmakingSystem.init
      ((((PlayerManager.init.addPlayer 1).addPlayer 2).addPlayer 3).addPlayer 4)).queuePlayer
    1 1 "idle" 0 0).queuePlayer 2 2 "idle" 0 0).queuePlayer 3 3 "duel" 2 2).queuePlayer
    4 4 "duel" 2 2

/-- Players 1 to 4 connected; players 1 and 2 queued for mode `duel` with
`minPlayers = maxPlayers = 2`, then players 3 and 4 for mode `squad` with `minPlayers = 3`,
`maxPlayers = 4`. -/
def duelAndSquad : MatchmakingSystem :=
  ((((MatchmakingSystem.init
      ((((PlayerManager.init.addPlayer 1).addPlayer 2).addPlayer 3).addPlayer 4)).queuePlayer
    1 1 "duel" 2 2).queuePlayer 2 2 "duel" 2 2).queuePlayer 3 3 "squad" 3 4).queuePlayer
    4 4 "squad" 3 4

/-- The state after one matchmaking pass over `duelQueued 2 2`: players 1 and 2 share the
match `match0`. -/
def duelMatched : MatchmakingSystem :=
  (MatchmakingSystem.process sampleEnv 1 (duelQueued 2 2)).sys

/-! ## Facts about finite maps -/

namespace UMap

variable {K V : Type} [DecidableEq K]

omit [DecidableEq K] in
theorem ext_entries {m1 m2 : UMap K V} (h : m1.entries = m2.entries) : m1 = m2 := by
  cases m1
  cases m2
  simp only at h
  subst h
  rfl

theorem findIn_eq_none_iff (k : K) (es : List (K × V)) :
    findIn k es = none ↔ k ∉ es.map Prod.fst := by
  induction es with
  | nil => simp [findIn]
  | cons e es ih =>
    by_cases h : e.1 = k
    · simp [findIn, h]
    · have h2 : ¬ k = e.1 := fun h3 => h h3.symm
      simp [findIn, h, h2, ih]

theorem findIn_some_mem {k : K} {v : V} {es : List (K × V)} (h : findIn k es = some v) :
    (k, v) ∈ es := by
  induction es with
  | nil => simp [findIn] at h
  | cons e es ih =>
    by_cases he : e.1 = k
    · simp [findIn, he] at h
      have : e = (k, v) := by
        cases e
        simp at he h
        simp [he, h]
      simp [this]
    · simp [findIn, he] at h
      exact List.mem_cons_of_mem _ (ih h)

theorem findIn_filter_ne (k k2 : K) (es : List (K × V)) :
    findIn k2 (es.filter (fun e => decide (e.1 ≠ k))) = if k2 = k then none else findIn k2 es := by
  induction es with
  | nil => simp [findIn]
  | cons e es ih =>
    by_cases he : e.1 = k
    · by_cases hk : k2 = k
      · simp [he, hk] at ih ⊢
        exact ih
      · have : ¬ k = k2 := fun h => hk h.symm
        simp [he, hk, findIn, this] at ih ⊢
        exact ih
    · by_cases hk : k2 = k
      · have : ¬ e.1 = k2 := fun h => he (h.trans hk)
        simp [he, hk, findIn] at ih ⊢
        exact ih
      · by_cases h2 : e.1 = k2
        · simp [he, hk, findIn, h2]
        · simp [he, hk, findIn, h2] at ih ⊢
          exact ih

theorem findIn_overwrite (k k2 : K) (v : V) (es : List (K × V)) :
    findIn k2 (es.map (fun e => if e.1 = k then (k, v) else e))
      = if k2 = k then (if k ∈ es.map Prod.fst then some v else none) else findIn k2 es := by
  induction es with
  | nil => simp [findIn]
  | cons e es ih =>
    by_cases he : e.1 = k
    · by_cases hk : k2 = k
      · subst hk
        simp [findIn, he]
      · have h1 : ¬ k = k2 := fun h => hk h.symm
        have h2 : ¬ e.1 = k2 := fun h => hk (h.symm.trans he)
        simp [findIn, he, hk, h1, h2] at ih ⊢
        exact ih
    · by_cases hk : k2 = k
      · subst hk
        have h1 : ¬ k2 = e.1 := fun h => he h.symm
        simp only [List.map_cons, he, if_false, findIn, List.mem_cons, h1, false_or, if_true]
          at ih ⊢
        exact ih
      · by_cases h2 : e.1 = k2
        · simp [findIn, he, hk, h2]
        · simp [findIn, he, hk, h2] at ih ⊢
          exact ih

theorem findIn_append_single (k k2 : K) (v : V) (es : List (K × V)) :
    findIn k2 (es ++ [(k, v)])
      = match findIn k2 es with
        | some w => some w
        | none => if k = k2 then some v else none := by
  induction es with
  | nil => simp [findIn]
  | cons e es ih =>
    by_cases h2 : e.1 = k2
    · simp [findIn, h2]
    · simp [findIn, h2, ih]

theorem find_erase (m : UMap K V) (k k2 : K) :
    (m.erase k).find k2 = if k2 = k then none else m.find k2 := by
  unfold find erase
  exact findIn_filter_ne k k2 m.entries

theorem find_assign (m : UMap K V) (k k2 : K) (v : V) :
    (m.assign k v).find k2 = if k2 = k then some v else m.find k2 := by
  unfold find assign
  by_cases h : k ∈ m.entries.map Prod.fst
  · rw [dif_pos h]
    simp only
    rw [findIn_overwrite]
    simp [h]
  · rw [dif_neg h]
    simp only
    rw [findIn_append_single]
    by_cases hk : k2 = k
    · subst hk
      have := (findIn_eq_none_iff k2 m.entries).2 h
      simp [this]
    · have h1 : ¬ k = k2 := fun h => hk h.symm
      simp only [hk, h1, if_false]
      cases findIn k2 m.entries <;> rfl

theorem erase_of_find_none (m : UMap K V) (k : K) (h : m.find k = none) : m.erase k = m := by
  apply ext_entries
  unfold erase
  simp only
  rw [List.filter_eq_self]
  intro e he
  have hk := (findIn_eq_none_iff k m.entries).1 h
  simp only [ne_eq, decide_not, Bool.not_eq_eq_eq_not, Bool.not_true, decide_eq_false_iff_not]
  intro h2
  exact hk (List.mem_map.2 ⟨e, he, h2⟩)

theorem mem_entries_assign {m : UMap K V} {k : K} {v : V} {e : K × V}
    (h : e ∈ (m.assign k v).entries) : e = (k, v) ∨ e ∈ m.entries := by
  unfold assign at h
  split at h
  · simp only [List.mem_map] at h
    obtain ⟨e0, he0, hf⟩ := h
    by_cases hk : e0.1 = k
    · rw [if_pos hk] at hf
      exact Or.inl hf.symm
    · rw [if_neg hk] at hf
      exact Or.inr (hf ▸ he0)
  · rcases List.mem_append.1 h with h1 | h1
    · exact Or.inr h1
    · exact Or.inl (List.mem_singleton.1 h1)

omit [DecidableEq K] in
theorem find_empty (k : K) [DecidableEq K] : (UMap.empty : UMap K V).find k = none := rfl

end UMap

/-! ## Facts about the registry -/

namespace PlayerManager

theorem getPlayer_setPlayerInMatch (pm : PlayerManager) (q p : Nat) (b : Bool) (mid : String) :
    (pm.setPlayerInMatch q b mid).getPlayer p
      = if p = q then
          (pm.getPlayer q).map (fun r => { r with inMatch := b, currentMatchId := mid })
        else pm.getPlayer p := by
  unfold setPlayerInMatch getPlayer
  cases h : pm.m_players.find q with
  | none =>
    by_cases hp : p = q
    · subst hp
      simp [h]
    · simp [hp]
  | some r =>
    simp only [UMap.find_assign, Option.map_some']

theorem playerExists_setPlayerInMatch (pm : PlayerManager) (q p : Nat) (b : Bool)
    (mid : String) :
    (pm.setPlayerInMatch q b mid).playerExists p = pm.playerExists p := by
  have h := getPlayer_setPlayerInMatch pm q p b mid
  unfold getPlayer at h
  unfold playerExists UMap.contains
  rw [h]
  by_cases hp : p = q
  · subst hp
    cases pm.m_players.find p <;> simp
  · simp [hp]

end PlayerManager

/-! ## Facts about `removePlayer` and `endMatch` -/

namespace MatchmakingSystem

theorem rebuildQueue_eq (drop : MatchmakingRequest → Bool) (q acc : List MatchmakingRequest) :
    rebuildQueue drop q acc = acc ++ q.filter (fun r => !drop r) := by
  induction q generalizing acc with
  | nil => simp [rebuildQueue]
  | cons front rest ih =>
    cases h : drop front
    · simp [rebuildQueue, ih, h]
    · simp [rebuildQueue, ih, h]

theorem removePlayer_m_queue (s : MatchmakingSystem) (p : Nat) :
    (removePlayer s p).m_queue
      = rebuildQueue (fun r => decide (r.playerId = p)) s.m_queue [] := by
  unfold removePlayer
  simp only
  split
  · rfl
  · split
    · rfl
    · split <;> rfl

theorem removePlayer_m_playerManager (s : MatchmakingSystem) (p : Nat) :
    (removePlayer s p).m_playerManager = s.m_playerManager := by
  unfold removePlayer
  simp only
  split
  · rfl
  · split
    · rfl
    · split <;> rfl

theorem removePlayer_m_playerToMatch (s : MatchmakingSystem) (p : Nat) :
    (removePlayer s p).m_playerToMatch = s.m_playerToMatch.erase p := by
  unfold removePlayer
  simp only
  split
  · rename_i h
    exact (UMap.erase_of_find_none _ _ h).symm
  · split
    · rfl
    · split <;> rfl

/-- The state reached by folding the per-member step of `endMatch` over a member list. -/
theorem endMatch_fold (L : List Nat) (s : MatchmakingSystem) :
    let s1 := L.foldl
      (fun (acc : MatchmakingSystem) playerId =>
        { acc with
          m_playerToMatch := acc.m_playerToMatch.erase playerId
          m_playerManager := acc.m_playerManager.setPlayerInMatch playerId false "" })
      s
    s1.m_matches = s.m_matches ∧ s1.m_queue = s.m_queue ∧ s1.idsGenerated = s.idsGenerated ∧
    (∀ p, s1.m_playerToMatch.find p = if p ∈ L then none else s.m_playerToMatch.find p) ∧
    (∀ p, s1.m_playerManager.getPlayer p
        = if p ∈ L then
            (s.m_playerManager.getPlayer p).map
              (fun r => { r with inMatch := false, currentMatchId := "" })
          else s.m_playerManager.getPlayer p) := by
  induction L generalizing s with
  | nil => simp
  | cons a L ih =>
    simp only [List.foldl_cons]
    obtain ⟨h1, h2, h3, h4, h5⟩ := ih
      { s with
        m_playerToMatch := s.m_playerToMatch.erase a
        m_playerManager := s.m_playerManager.setPlayerInMatch a false "" }
    refine ⟨h1, h2, h3, ?_, ?_⟩
    · intro p
      rw [h4 p]
      simp only [UMap.find_erase, List.mem_cons]
      by_cases hp : p = a
      · simp [hp]
      · simp [hp]
    · intro p
      rw [h5 p]
      simp only [PlayerManager.getPlayer_setPlayerInMatch, List.mem_cons]
      by_cases hp : p = a
      · subst hp
        simp only [if_true, true_or]
        cases s.m_playerManager.getPlayer p <;> simp
      · simp [hp]

end MatchmakingSystem

/-! ## Facts about the matchmaking pass -/

namespace MatchmakingSystem

theorem takeGroup_mem (g : String) (cap : Nat) (reqs acc : List MatchmakingRequest)
    (r : MatchmakingRequest) (h : r ∈ takeGroup g cap reqs acc) :
    r ∈ acc ∨ (r ∈ reqs ∧ r.gameMode = g) := by
  induction reqs generalizing acc with
  | nil => exact Or.inl (by simpa [takeGroup] using h)
  | cons a rest ih =>
    unfold takeGroup at h
    split at h
    · rcases ih _ h with h1 | ⟨h1, h2⟩
      · split at h1
        · rename_i hg
          rcases List.mem_append.1 h1 with h3 | h3
          · exact Or.inl h3
          · simp only [List.mem_singleton] at h3
            subst h3
            exact Or.inr ⟨List.mem_cons_self _ _, hg⟩
        · exact Or.inl h1
      · exact Or.inr ⟨List.mem_cons_of_mem _ h1, h2⟩
    · exact Or.inl h

theorem eraseMatched_subset (grp reqs : List MatchmakingRequest) (r : MatchmakingRequest)
    (h : r ∈ eraseMatched grp reqs) : r ∈ reqs := by
  unfold eraseMatched at h
  induction grp generalizing reqs with
  | nil => simpa using h
  | cons a grp ih =>
    simp only [List.foldl_cons] at h
    exact (List.mem_filter.1 (ih _ h)).1

/-- The state reached by folding the per-member step of `createMatch` over a member list. -/
theorem createMatch_fold (mid : String) (L : List Nat) (s : MatchmakingSystem) :
    let s1 := L.foldl
      (fun (acc : MatchmakingSystem) playerId =>
        { acc with
          m_playerToMatch := acc.m_playerToMatch.assign playerId mid
          m_playerManager := acc.m_playerManager.setPlayerInMatch playerId true mid })
      s
    s1.m_matches = s.m_matches ∧ s1.m_queue = s.m_queue ∧ s1.idsGenerated = s.idsGenerated ∧
    (∀ p, s1.m_playerToMatch.find p = if p ∈ L then some mid else s.m_playerToMatch.find p) ∧
    (∀ p, s1.m_playerManager.getPlayer p
        = if p ∈ L then
            (s.m_playerManager.getPlayer p).map
              (fun r => { r with inMatch := true, currentMatchId := mid })
          else s.m_playerManager.getPlayer p) := by
  induction L generalizing s with
  | nil => simp
  | cons a L ih =>
    simp only [List.foldl_cons]
    obtain ⟨h1, h2, h3, h4, h5⟩ := ih
      { s with
        m_playerToMatch := s.m_playerToMatch.assign a mid
        m_playerManager := s.m_playerManager.setPlayerInMatch a true mid }
    refine ⟨h1, h2, h3, ?_, ?_⟩
    · intro p
      rw [h4 p]
      simp only [UMap.find_assign, List.mem_cons]
      by_cases hp : p = a
      · simp [hp]
      · simp [hp]
    · intro p
      rw [h5 p]
      simp only [PlayerManager.getPlayer_setPlayerInMatch, List.mem_cons]
      by_cases hp : p = a
      · subst hp
        simp only [if_true, true_or]
        cases s.m_playerManager.getPlayer p <;> simp
      · simp [hp]

theorem createMatch_m_queue (env : Env) (s : MatchmakingSystem) (ps : List Nat) (g : String) :
    (createMatch env s ps g).1.m_queue = s.m_queue := by
  unfold createMatch
  exact (createMatch_fold _ ps _).2.1

theorem createMatch_snd (env : Env) (s : MatchmakingSystem) (ps : List Nat) (g : String) :
    (createMatch env s ps g).2
      = ⟨env.matchIdAt s.idsGenerated, ps, g, env.clockAt s.idsGenerated, true⟩ := rfl

/-- Every match the loop of one game mode adds to the log carries that game mode, and each of
its members owns a request of that game mode in the vector the loop started from. -/
theorem matchLoop_created (env : Env) (g : String) (fuel : Nat) :
    ∀ (reqs : List MatchmakingRequest) (s : MatchmakingSystem) (log : List Match) (m : Match),
      m ∈ (matchLoop env g fuel reqs s log).created →
      m ∈ log ∨ (m.gameMode = g ∧
        ∀ p ∈ m.players, ∃ r ∈ reqs, r.playerId = p ∧ r.gameMode = g) := by
  induction fuel with
  | zero =>
    intro reqs s log m h
    exact Or.inl (by simpa [matchLoop] using h)
  | succ fuel ih =>
    intro reqs s log m h
    unfold matchLoop at h
    split at h
    · exact Or.inl h
    · split at h
      · exact Or.inl h
      · simp only at h
        split at h
        · rcases ih _ _ _ _ h with h1 | ⟨h1, h2⟩
          · rcases List.mem_append.1 h1 with h3 | h3
            · exact Or.inl h3
            · right
              simp only [List.mem_singleton] at h3
              subst h3
              refine ⟨rfl, ?_⟩
              intro p hp
              rw [createMatch_snd] at hp
              simp only [List.mem_map] at hp
              obtain ⟨r, hr, hrp⟩ := hp
              rcases takeGroup_mem _ _ _ _ _ hr with h4 | ⟨h4, h5⟩
              · simp at h4
              · exact ⟨r, h4, hrp, h5⟩
          · right
            refine ⟨h1, fun p hp => ?_⟩
            obtain ⟨r, hr, e1, e2⟩ := h2 p hp
            exact ⟨r, eraseMatched_subset _ _ _ hr, e1, e2⟩
        · exact Or.inl h

/-- The loop of one game mode whose vector holds only requests of players satisfying `reg`
removes no request of a player failing `reg` from the queue, and adds none. -/
theorem matchLoop_queue_unreg (env : Env) (g : String) (reg : Nat → Bool) (fuel : Nat) :
    ∀ (reqs : List MatchmakingRequest) (s : MatchmakingSystem) (log : List Match),
      (∀ r ∈ reqs, reg r.playerId = true) →
      (matchLoop env g fuel reqs s log).sys.m_queue.filter (fun r => !reg r.playerId)
        = s.m_queue.filter (fun r => !reg r.playerId) := by
  induction fuel with
  | zero =>
    intro reqs s log _
    simp [matchLoop]
  | succ fuel ih =>
    intro reqs s log hreg
    unfold matchLoop
    split
    · rfl
    · split
      · rfl
      · simp only
        split
        · rw [ih _ _ _ (fun r hr => hreg r (eraseMatched_subset _ _ _ hr))]
          simp only [rebuildQueue_eq, List.nil_append, createMatch_m_queue, List.filter_filter]
          apply List.filter_congr
          intro r _
          cases hr : reg r.playerId
          · simp only [Bool.not_false, Bool.true_and, Bool.not_eq_true', List.any_eq_false,
              decide_eq_true_eq]
            intro x hx hxr
            rcases takeGroup_mem _ _ _ _ _ hx with h4 | ⟨h4, _⟩
            · simp at h4
            · have := hreg x h4
              rw [← hxr, hr] at this
              exact Bool.false_ne_true this
          · simp only [Bool.not_true, Bool.false_and]
        · rfl

theorem matchGroups_created (env : Env) (fuel : Nat)
    (groups : List (String × List MatchmakingRequest)) :
    ∀ (s : MatchmakingSystem) (log : List Match) (m : Match),
      m ∈ (matchGroups env fuel groups s log).created →
      m ∈ log ∨ ∃ pair ∈ groups, m.gameMode = pair.1 ∧
        ∀ p ∈ m.players, ∃ r ∈ pair.2, r.playerId = p ∧ r.gameMode = pair.1 := by
  induction groups with
  | nil =>
    intro s log m h
    exact Or.inl (by simpa [matchGroups] using h)
  | cons pair others ih =>
    intro s log m h
    unfold matchGroups at h
    simp only at h
    have key : ∀ m, m ∈ (matchLoop env pair.1 fuel pair.2 s log).created →
        m ∈ log ∨ ∃ pr ∈ pair :: others, m.gameMode = pr.1 ∧
          ∀ p ∈ m.players, ∃ r ∈ pr.2, r.playerId = p ∧ r.gameMode = pr.1 := by
      intro m hm
      rcases matchLoop_created env pair.1 fuel _ _ _ m hm with h1 | h1
      · exact Or.inl h1
      · exact Or.inr ⟨pair, List.mem_cons_self _ _, h1⟩
    split at h
    · rcases ih _ _ m h with h1 | ⟨pr, hpr, h2⟩
      · exact key m h1
      · exact Or.inr ⟨pr, List.mem_cons_of_mem _ hpr, h2⟩
    · exact key m h

theorem matchGroups_queue_unreg (env : Env) (reg : Nat → Bool) (fuel : Nat)
    (groups : List (String × List MatchmakingRequest)) :
    ∀ (s : MatchmakingSystem) (log : List Match),
      (∀ pair ∈ groups, ∀ r ∈ pair.2, reg r.playerId = true) →
      (matchGroups env fuel groups s log).sys.m_queue.filter (fun r => !reg r.playerId)
        = s.m_queue.filter (fun r => !reg r.playerId) := by
  induction groups with
  | nil =>
    intro s log _
    simp [matchGroups]
  | cons pair others ih =>
    intro s log hreg
    have h1 := matchLoop_queue_unreg env pair.1 reg fuel pair.2 s log
      (hreg pair (List.mem_cons_self _ _))
    unfold matchGroups
    simp only
    split
    · rw [ih _ _ (fun pr hpr => hreg pr (List.mem_cons_of_mem _ hpr)), h1]
    · exact h1

end MatchmakingSystem

namespace MatchmakingSystem

/-- Every request in a group built by the first loop of `process` comes from the snapshot, is
owned by a registered player and carries the game mode of its group, unless it was in the map
the loop started from. -/
theorem groupByMode_mem (pm : PlayerManager) (q : List MatchmakingRequest) :
    ∀ (acc : UMap String (List MatchmakingRequest)) (e : String × List MatchmakingRequest)
      (r : MatchmakingRequest),
      e ∈ (groupByMode pm q acc).entries → r ∈ e.2 →
      (r ∈ q ∧ pm.playerExists r.playerId = true ∧ r.gameMode = e.1) ∨
        ∃ e0 ∈ acc.entries, e0.1 = e.1 ∧ r ∈ e0.2 := by
  induction q with
  | nil =>
    intro acc e r he hr
    exact Or.inr ⟨e, by simpa [groupByMode] using he, rfl, hr⟩
  | cons request tempQueue ih =>
    intro acc e r he hr
    unfold groupByMode at he
    split at he
    · rename_i hex
      rcases ih _ e r he hr with ⟨h1, h2, h3⟩ | ⟨e0, he0, h1, h2⟩
      · exact Or.inl ⟨List.mem_cons_of_mem _ h1, h2, h3⟩
      · rcases UMap.mem_entries_assign he0 with h3 | h3
        · subst h3
          simp only [List.mem_append, List.mem_singleton] at h2
          rcases h2 with h2 | h2
          · cases hf : acc.find request.gameMode with
            | none => simp [hf] at h2
            | some old =>
              simp only [hf, Option.getD_some] at h2
              exact Or.inr ⟨(request.gameMode, old), UMap.findIn_some_mem hf, h1, h2⟩
          · subst h2
            exact Or.inl ⟨List.mem_cons_self _ _, hex, h1⟩
        · exact Or.inr ⟨e0, h3, h1, h2⟩
    · rcases ih _ e r he hr with ⟨h1, h2, h3⟩ | h1
      · exact Or.inl ⟨List.mem_cons_of_mem _ h1, h2, h3⟩
      · exact Or.inr h1

/-- Every request of every group the pass visits is in the queue, is owned by a registered
player, and carries the game mode of its group. -/
theorem visited_groups_mem (env : Env) (s : MatchmakingSystem)
    (pair : String × List MatchmakingRequest)
    (hp : pair ∈ env.visit (groupByMode s.m_playerManager s.m_queue UMap.empty).entries)
    (r : MatchmakingRequest) (hr : r ∈ pair.2) :
    r ∈ s.m_queue ∧ s.m_playerManager.playerExists r.playerId = true ∧ r.gameMode = pair.1 := by
  have hp2 := (env.visit_perm _).mem_iff.1 hp
  rcases groupByMode_mem _ _ _ pair r hp2 hr with h | ⟨e0, he0, _⟩
  · exact h
  · simp [UMap.empty] at he0

/-- Every member of a match created by the pass owns a request in the queue the pass started
from, with the game mode of the match, and is registered. -/
theorem process_created (env : Env) (fuel : Nat) (s : MatchmakingSystem) (m : Match)
    (h : m ∈ (process env fuel s).created) :
    ∀ p ∈ m.players, ∃ r ∈ s.m_queue,
      r.playerId = p ∧ r.gameMode = m.gameMode ∧ s.m_playerManager.playerExists p = true := by
  unfold process at h
  split at h
  · simp at h
  · simp only at h
    rcases matchGroups_created env fuel _ s [] m h with h1 | ⟨pair, hpair, hg, hmem⟩
    · simp at h1
    · intro p hp
      obtain ⟨r, hr, e1, e2⟩ := hmem p hp
      obtain ⟨k1, k2, _⟩ := visited_groups_mem env s pair hpair r hr
      exact ⟨r, k1, e1, by rw [e2, hg], e1 ▸ k2⟩

end MatchmakingSystem

/-! ## Facts about a queue of duels -/

namespace MatchmakingSystem

theorem takeGroup_two (g : String) (a b : MatchmakingRequest) (rest : List MatchmakingRequest)
    (ha : a.gameMode = g) (hb : b.gameMode = g) :
    takeGroup g 2 (a :: b :: rest) [] = [a, b] := by
  cases rest <;> simp [takeGroup, ha, hb]

theorem eraseMatched_two (a b : MatchmakingRequest) (rest : List MatchmakingRequest)
    (hab : a.playerId ≠ b.playerId) (ha : ∀ r ∈ rest, r.playerId ≠ a.playerId)
    (hb : ∀ r ∈ rest, r.playerId ≠ b.playerId) :
    eraseMatched [a, b] (a :: b :: rest) = rest := by
  simp [eraseMatched, List.filter_cons, hab, Ne.symm hab]
  exact fun r hr => ⟨hb r hr, ha r hr⟩

theorem rebuildQueue_two (a b : MatchmakingRequest) (rest : List MatchmakingRequest)
    (ha : ∀ r ∈ rest, r.playerId ≠ a.playerId) (hb : ∀ r ∈ rest, r.playerId ≠ b.playerId) :
    rebuildQueue (fun front => [a, b].any (fun req => decide (front.playerId = req.playerId)))
      (a :: b :: rest) [] = rest := by
  rw [rebuildQueue_eq]
  simp [List.filter_cons]
  exact fun r hr => ⟨ha r hr, hb r hr⟩

theorem toSizeT_two : toSizeT 2 = 2 := by decide

theorem matchLoop_duels (env : Env) (g : String) (fuel : Nat) :
    ∀ (reqs : List MatchmakingRequest) (s : MatchmakingSystem) (log : List Match),
      reqs.length / 2 ≤ fuel →
      (∀ r ∈ reqs, r.gameMode = g ∧ r.minPlayers = 2 ∧ r.maxPlayers = 2) →
      (reqs.map (fun r => r.playerId)).Nodup →
      s.m_queue = reqs →
      (matchLoop env g fuel reqs s log).finished = true ∧
      (matchLoop env g fuel reqs s log).created.map (fun m => m.players)
        = log.map (fun m => m.players) ++
          (List.range (reqs.length / 2)).map
            (fun i => ((reqs.drop (2 * i)).take 2).map (fun r => r.playerId)) ∧
      (matchLoop env g fuel reqs s log).sys.m_queue = reqs.drop (2 * (reqs.length / 2)) := by
  induction fuel with
  | zero =>
    intro reqs s log hf _ _ hq
    have hlen : reqs.length < 2 := by omega
    have h0 : reqs.length / 2 = 0 := by omega
    simp [matchLoop, hlen, h0, hq]
  | succ fuel ih =>
    intro reqs s log hf hm hnd hq
    match reqs, hf, hm, hnd, hq with
    | [], _, _, _, hq => simp [matchLoop, hq]
    | [a], _, _, _, hq => simp [matchLoop, hq]
    | a :: b :: rest, hf, hm, hnd, hq =>
      obtain ⟨hag, hamin, hamax⟩ := hm a (by simp)
      obtain ⟨hbg, _, _⟩ := hm b (by simp)
      simp only [List.map_cons, List.nodup_cons, List.mem_cons, List.mem_map, not_or,
        not_exists, not_and] at hnd
      obtain ⟨⟨hab, harest⟩, hbrest, hndrest⟩ := hnd
      have ha : ∀ r ∈ rest, r.playerId ≠ a.playerId := fun r hr h => harest r hr h
      have hb : ∀ r ∈ rest, r.playerId ≠ b.playerId := fun r hr h => hbrest r hr h
      have hlen : (a :: b :: rest).length / 2 = rest.length / 2 + 1 := by
        simp only [List.length_cons]; omega
      have hf2 : rest.length / 2 ≤ fuel := by omega
      obtain ⟨i1, i2, i3⟩ := ih rest
        { (createMatch env s ([a, b].map (fun r => r.playerId)) g).1 with m_queue := rest }
        (log ++ [(createMatch env s ([a, b].map (fun r => r.playerId)) g).2])
        hf2 (fun r hr => hm r (by simp [hr])) hndrest rfl
      have hstep : matchLoop env g (fuel + 1) (a :: b :: rest) s log
          = matchLoop env g fuel rest
            { (createMatch env s ([a, b].map (fun r => r.playerId)) g).1 with m_queue := rest }
            (log ++ [(createMatch env s ([a, b].map (fun r => r.playerId)) g).2]) := by
        rw [matchLoop]
        simp only [List.length_cons, List.head?_cons, hamin, hamax, toSizeT_two,
          takeGroup_two g a b rest hag hbg, eraseMatched_two a b rest hab ha hb,
          createMatch_m_queue, hq, rebuildQueue_two a b rest ha hb]
        simp
      rw [hstep]
      refine ⟨i1, ?_, ?_⟩
      · rw [i2, hlen, List.range_succ_eq_map]
        simp [createMatch_snd, Function.comp_def, Nat.mul_add]
      · rw [i3, hlen]
        simp [Nat.mul_add]

theorem drop_pred_length {α : Type} : ∀ (l : List α), l ≠ [] →
    l.drop (l.length - 1) = l.getLast?.toList
  | [], h => absurd rfl h
  | [_], _ => rfl
  | _ :: b :: l, _ => by
    have ih := drop_pred_length (b :: l) (by simp)
    simp only [List.length_cons, Nat.add_sub_cancel] at ih ⊢
    rw [List.drop_succ_cons, ih, List.getLast?_cons_cons]

theorem entries_assign_single {V : Type} (acc : UMap String V) (g : String) (rs v : V)
    (h : acc.entries = [(g, rs)]) : (acc.assign g v).entries = [(g, v)] := by
  unfold UMap.assign
  split
  · simp [h]
  · rename_i hn
    simp [h] at hn

theorem groupByMode_single (pm : PlayerManager) (g : String) (q : List MatchmakingRequest) :
    ∀ (acc : UMap String (List MatchmakingRequest)) (rs : List MatchmakingRequest),
      (∀ r ∈ q, pm.playerExists r.playerId = true ∧ r.gameMode = g) →
      acc.entries = [(g, rs)] →
      (groupByMode pm q acc).entries = [(g, rs ++ q)] := by
  induction q with
  | nil =>
    intro acc rs _ h
    simp [groupByMode, h]
  | cons request tempQueue ih =>
    intro acc rs hq h
    obtain ⟨hreg, hg⟩ := hq request (List.mem_cons_self _ _)
    have hfind : acc.find g = some rs := by
      simp [UMap.find, h, UMap.findIn]
    unfold groupByMode
    rw [if_pos hreg, hg, hfind, Option.getD_some]
    rw [ih _ (rs ++ [request]) (fun r hr => hq r (List.mem_cons_of_mem _ hr))
      (entries_assign_single acc g rs _ h)]
    simp

theorem groupByMode_same_mode (pm : PlayerManager) (g : String) (q : List MatchmakingRequest)
    (hne : q ≠ [])
    (hq : ∀ r ∈ q, pm.playerExists r.playerId = true ∧ r.gameMode = g) :
    (groupByMode pm q UMap.empty).entries = [(g, q)] := by
  match q, hne, hq with
  | request :: tempQueue, _, hq =>
    obtain ⟨hreg, hg⟩ := hq request (List.mem_cons_self _ _)
    unfold groupByMode
    rw [if_pos hreg, hg]
    rw [groupByMode_single pm g tempQueue _ [request]
      (fun r hr => hq r (List.mem_cons_of_mem _ hr))]
    · simp
    · simp [UMap.assign, UMap.empty, UMap.find, UMap.findIn]

end MatchmakingSystem

/-! ## Claims about `removePlayer` and `endMatch` -/

namespace MatchmakingSystem

/-- C4: when match `M` is in the table with member list `L` and `p` is mapped to `M`, after
`removePlayer p` the match is still in the table with member list `L` without `p` (the others
in their order, other fields untouched) if that list is non-empty, and is gone from the table
if that list is empty. -/
theorem removePlayer_match_members (s : MatchmakingSystem) (M : String) (mt : Match) (p : Nat)
    (hM : s.m_matches.find M = some mt) (hp : s.m_playerToMatch.find p = some M) :
    (mt.players.filter (fun q => decide (q ≠ p)) ≠ [] →
      (removePlayer s p).m_matches.find M
        = some { mt with players := mt.players.filter (fun q => decide (q ≠ p)) }) ∧
    (mt.players.filter (fun q => decide (q ≠ p)) = [] →
      (removePlayer s p).m_matches.find M = none) := by
  unfold removePlayer
  simp only [hp, hM]
  constructor
  · intro hne
    have : (mt.players.filter (fun q => decide (q ≠ p))).isEmpty = false := by
      cases h : mt.players.filter (fun q => decide (q ≠ p)) with
      | nil => exact absurd h hne
      | cons a l => rfl
    simp only [this, Bool.false_eq_true, if_false, UMap.find_assign, if_true]
  · intro he
    simp only [he, List.isEmpty_nil, if_true, UMap.find_erase]

/-- Scenario of C4: match `match0` has members 1 and 2; cancelling 1 leaves it with member 2,
cancelling 2 afterwards deletes it. -/
theorem removePlayer_match_members_witness :
    (duelMatched.m_matches.find "match0"
        = some ⟨"match0", [1, 2], "duel", 0, true⟩ ∧
      duelMatched.m_playerToMatch.find 1 = some "match0" ∧
      (removePlayer duelMatched 1).m_matches.find "match0"
        = some ⟨"match0", [2], "duel", 0, true⟩) ∧
    ((removePlayer duelMatched 1).m_playerToMatch.find 2 = some "match0" ∧
      (removePlayer (removePlayer duelMatched 1) 2).m_matches.find "match0" = none) :=
  ⟨⟨by decide, by decide,
      (removePlayer_match_members duelMatched "match0" ⟨"match0", [1, 2], "duel", 0, true⟩ 1
        (by decide) (by decide)).1 (by decide)⟩,
    ⟨by decide,
      (removePlayer_match_members (removePlayer duelMatched 1) "match0"
        ⟨"match0", [2], "duel", 0, true⟩ 2 (by decide) (by decide)).2 (by decide)⟩⟩

/-- C5: for a player that owns no queued request and has no player-to-match mapping,
`removePlayer` returns the state it was given (queue, match table, index and registry all
equal), so a second call changes nothing either. -/
theorem removePlayer_unknown_noop (s : MatchmakingSystem) (p : Nat)
    (hq : ∀ r ∈ s.m_queue, r.playerId ≠ p) (hm : s.m_playerToMatch.find p = none) :
    removePlayer s p = s ∧ removePlayer (removePlayer s p) p = removePlayer s p := by
  have h1 : removePlayer s p = s := by
    unfold removePlayer
    have hq2 : rebuildQueue (fun r => decide (r.playerId = p)) s.m_queue [] = s.m_queue := by
      rw [rebuildQueue_eq, List.nil_append, List.filter_eq_self]
      intro r hr
      simp [hq r hr]
    simp only [hq2, hm]
  exact ⟨h1, by rw [h1, h1]⟩

/-- Instance of C5: player 7 is unknown to the state `duelMatched`. -/
theorem removePlayer_unknown_noop_witness :
    removePlayer duelMatched 7 = duelMatched ∧
      removePlayer (removePlayer duelMatched 7) 7 = removePlayer duelMatched 7 :=
  removePlayer_unknown_noop duelMatched 7 (by decide) (by decide)

/-- C6: the queue after `removePlayer p` is the old queue with every request of `p` removed
and every other request kept, in the same order. -/
theorem removePlayer_queue_filter (s : MatchmakingSystem) (p : Nat) :
    (removePlayer s p).m_queue = s.m_queue.filter (fun r => decide (r.playerId ≠ p)) := by
  rw [removePlayer_m_queue, rebuildQueue_eq, List.nil_append]
  congr 1
  funext r
  simp

/-- C7: `endMatch M` on a match that is in the table removes it from the table, leaves no
player-to-match mapping for any of its members, and turns the registry record of every member
into the same record with `inMatch = false` and an empty `currentMatchId` (an unregistered
member stays unregistered); on a match id that is not in the table it returns the state
unchanged. -/
theorem endMatch_clears (s : MatchmakingSystem) (M : String) :
    (∀ mt, s.m_matches.find M = some mt →
      (endMatch s M).m_matches.find M = none ∧
      (∀ p ∈ mt.players, (endMatch s M).m_playerToMatch.find p = none) ∧
      (∀ p ∈ mt.players, (endMatch s M).m_playerManager.getPlayer p
        = (s.m_playerManager.getPlayer p).map
            (fun r => { r with inMatch := false, currentMatchId := "" }))) ∧
    (s.m_matches.find M = none → endMatch s M = s) := by
  constructor
  · intro mt hM
    obtain ⟨h1, _, _, h4, h5⟩ := endMatch_fold mt.players s
    unfold endMatch
    simp only [hM]
    refine ⟨?_, ?_, ?_⟩
    · simp [UMap.find_erase]
    · intro p hp
      have := h4 p
      simp only [hp, if_true] at this
      exact this
    · intro p hp
      have := h5 p
      simp only [hp, if_true] at this
      exact this
  · intro hM
    unfold endMatch
    simp only [hM]

/-- Instance of C7: ending `match0` in `duelMatched`, and ending an id that is not there. -/
theorem endMatch_clears_witness :
    (duelMatched.m_matches.find "match0" = some ⟨"match0", [1, 2], "duel", 0, true⟩ ∧
      (endMatch duelMatched "match0").m_matches.find "match0" = none ∧
      (∀ p ∈ [1, 2], (endMatch duelMatched "match0").m_playerToMatch.find p = none) ∧
      (∀ p ∈ [1, 2], (endMatch duelMatched "match0").m_playerManager.getPlayer p
        = (duelMatched.m_playerManager.getPlayer p).map
            (fun r => { r with inMatch := false, currentMatchId := "" }))) ∧
    (duelMatched.m_matches.find "nomatch" = none ∧
      endMatch duelMatched "nomatch" = duelMatched) :=
  ⟨⟨by decide,
      (endMatch_clears duelMatched "match0").1 ⟨"match0", [1, 2], "duel", 0, true⟩ (by decide)⟩,
    ⟨by decide, (endMatch_clears duelMatched "nomatch").2 (by decide)⟩⟩

/-- C3 (evaluation at the failing input): in `duelMatched` player 1 is mapped to `match0`;
after `removePlayer 1` the mapping is gone, but the registry record of player 1 still has
`inMatch = true` and `currentMatchId = match0`. -/
theorem removePlayer_keeps_registry_flag :
    duelMatched.m_playerToMatch.find 1 = some "match0" ∧
    (removePlayer duelMatched 1).m_playerToMatch.find 1 = none ∧
    (removePlayer duelMatched 1).m_playerManager.getPlayer 1
      = some ⟨1, "Player1", true, "match0", 0, 0⟩ := by
  decide

end MatchmakingSystem

/-! ## Claims about the matchmaking pass -/

namespace MatchmakingSystem

/-- A queue of `k ≥ 2` duel requests of pairwise distinct registered players: the matches the
pass hands to `createMatch`, by members, and the queue it leaves. -/
theorem process_duels (env : Env) (fuel : Nat) (s : MatchmakingSystem) (g : String)
    (hk : 2 ≤ s.m_queue.length)
    (hreg : ∀ r ∈ s.m_queue, s.m_playerManager.playerExists r.playerId = true)
    (hdistinct : (s.m_queue.map (fun r => r.playerId)).Nodup)
    (hmode : ∀ r ∈ s.m_queue, r.gameMode = g ∧ r.minPlayers = 2 ∧ r.maxPlayers = 2)
    (hfuel : s.m_queue.length / 2 ≤ fuel) :
    (process env fuel s).finished = true ∧
    (process env fuel s).created.length = s.m_queue.length / 2 ∧
    (process env fuel s).created.map (fun m => m.players)
      = (List.range (s.m_queue.length / 2)).map
          (fun i => ((s.m_queue.drop (2 * i)).take 2).map (fun r => r.playerId)) ∧
    (process env fuel s).sys.m_queue
      = (if s.m_queue.length % 2 = 0 then [] else s.m_queue.getLast?.toList) := by
  have hne : s.m_queue ≠ [] := by
    intro h
    rw [h] at hk
    simp at hk
  have hgroups : env.visit (groupByMode s.m_playerManager s.m_queue UMap.empty).entries
      = [(g, s.m_queue)] := by
    have h1 := groupByMode_same_mode s.m_playerManager g s.m_queue hne
      (fun r hr => ⟨hreg r hr, (hmode r hr).1⟩)
    have h2 := env.visit_perm (groupByMode s.m_playerManager s.m_queue UMap.empty).entries
    rw [h1] at h2 ⊢
    exact List.perm_singleton.1 h2
  obtain ⟨l1, l2, l3⟩ := matchLoop_duels env g fuel s.m_queue s [] hfuel hmode hdistinct rfl
  have hproc : process env fuel s
      = ⟨(matchLoop env g fuel s.m_queue s []).sys,
          (matchLoop env g fuel s.m_queue s []).created, true⟩ := by
    unfold process
    rw [if_neg (by omega)]
    simp only [hgroups, matchGroups, l1, if_true]
  rw [hproc]
  refine ⟨rfl, ?_, ?_, ?_⟩
  · have := congrArg List.length l2
    simpa using this
  · simpa using l2
  · simp only [l3]
    split
    · have : 2 * (s.m_queue.length / 2) = s.m_queue.length := by omega
      rw [this, List.drop_length]
    · have : 2 * (s.m_queue.length / 2) = s.m_queue.length - 1 := by omega
      rw [this, drop_pred_length _ hne]

/-- C2 (evaluation at the failing input): players 1 and 2 are queued for `duel` with
`minPlayers = 2` and `maxPlayers = -1`; the pass creates a match with the two members 1 and 2,
a member count above the `maxPlayers` of the oldest request of the group. -/
theorem process_negative_maxPlayers :
    (duelQueued 2 (-1)).m_queue.map (fun r => (r.playerId, r.minPlayers, r.maxPlayers))
      = [(1, 2, -1), (2, 2, -1)] ∧
    (process sampleEnv 1 (duelQueued 2 (-1))).finished = true ∧
    (process sampleEnv 1 (duelQueued 2 (-1))).created
      = [⟨"match0", [1, 2], "duel", 0, true⟩] ∧
    ¬ (((([1, 2] : List Nat).length : Nat) : Int) ≤ -1) := by
  decide

/-- C8: every member of every match created by `process` (also by a pass cut short by the
iteration bound) satisfies `playerExists` in the registry as it was when the pass started. -/
theorem process_members_exist (env : Env) (fuel : Nat) (s : MatchmakingSystem) :
    ∀ m ∈ (process env fuel s).created, ∀ p ∈ m.players,
      s.m_playerManager.playerExists p = true := by
  intro m hm p hp
  obtain ⟨_, _, _, _, h⟩ := process_created env fuel s m hm p hp
  exact h

/-- Instance of C8: the pass over `duelQueued 2 2` creates `match0`, and its member 2 is
registered. -/
theorem process_members_exist_witness :
    (⟨"match0", [1, 2], "duel", 0, true⟩ : Match)
        ∈ (process sampleEnv 1 (duelQueued 2 2)).created ∧
      (2 : Nat) ∈ [1, 2] ∧
      (duelQueued 2 2).m_playerManager.playerExists 2 = true :=
  ⟨by decide, by decide,
    process_members_exist sampleEnv 1 (duelQueued 2 2) ⟨"match0", [1, 2], "duel", 0, true⟩
      (by decide) 2 (by decide)⟩

/-- C9: the requests of players that are not registered when `process` runs form the same
sequence before and after the pass, and that sequence is a subsequence of the queue after
the pass: each such request is still queued, in the same relative order. -/
theorem process_keeps_unregistered (env : Env) (fuel : Nat) (s : MatchmakingSystem) :
    (process env fuel s).sys.m_queue.filter
        (fun r => !s.m_playerManager.playerExists r.playerId)
      = s.m_queue.filter (fun r => !s.m_playerManager.playerExists r.playerId) ∧
    List.Sublist (s.m_queue.filter (fun r => !s.m_playerManager.playerExists r.playerId))
      (process env fuel s).sys.m_queue := by
  have h1 : (process env fuel s).sys.m_queue.filter
        (fun r => !s.m_playerManager.playerExists r.playerId)
      = s.m_queue.filter (fun r => !s.m_playerManager.playerExists r.playerId) := by
    unfold process
    split
    · rfl
    · simp only
      exact matchGroups_queue_unreg env (fun p => s.m_playerManager.playerExists p) fuel _ s []
        (fun pair hpair r hr => (visited_groups_mem env s pair hpair r hr).2.1)
  exact ⟨h1, h1 ▸ List.filter_sublist _⟩

/-- C10: every match created by `process` with game mode `g` is formed from requests of game
mode `g` only: each member owns a request with that game mode in the queue as it was at the
start of the pass. -/
theorem process_same_mode (env : Env) (fuel : Nat) (s : MatchmakingSystem) :
    ∀ m ∈ (process env fuel s).created, ∀ p ∈ m.players,
      ∃ r ∈ s.m_queue, r.playerId = p ∧ r.gameMode = m.gameMode := by
  intro m hm p hp
  obtain ⟨r, h1, h2, h3, _⟩ := process_created env fuel s m hm p hp
  exact ⟨r, h1, h2, h3⟩

/-- Instance of C10: member 1 of `match0`, created from `duelQueued 2 2`, owns a queued
request of mode `duel`. -/
theorem process_same_mode_witness :
    (⟨"match0", [1, 2], "duel", 0, true⟩ : Match)
        ∈ (process sampleEnv 1 (duelQueued 2 2)).created ∧
      (1 : Nat) ∈ [1, 2] ∧
      ∃ r ∈ (duelQueued 2 2).m_queue, r.playerId = 1 ∧ r.gameMode = "duel" :=
  ⟨by decide, by decide,
    process_same_mode sampleEnv 1 (duelQueued 2 2) ⟨"match0", [1, 2], "duel", 0, true⟩
      (by decide) 1 (by decide)⟩

end MatchmakingSystem

/-! ## Sizes of finite maps -/

namespace UMap

variable {K V : Type} [DecidableEq K]

theorem contains_iff_mem_keys (m : UMap K V) (k : K) :
    m.contains k = true ↔ k ∈ m.entries.map Prod.fst := by
  unfold contains find
  have h := findIn_eq_none_iff k m.entries
  cases hf : findIn k m.entries with
  | none =>
    rw [hf] at h
    simp only [Option.isSome_none, Bool.false_eq_true, false_iff]
    exact h.1 rfl
  | some v =>
    rw [hf] at h
    simp only [Option.isSome_some, true_iff]
    by_contra hn
    have := h.2 hn
    simp at this

theorem size_assign (m : UMap K V) (k : K) (v : V) :
    (m.assign k v).size = if m.contains k = true then m.size else m.size + 1 := by
  by_cases h : k ∈ m.entries.map Prod.fst
  · rw [if_pos ((contains_iff_mem_keys m k).2 h)]
    unfold assign size
    rw [dif_pos h]
    simp
  · rw [if_neg (fun hc => h ((contains_iff_mem_keys m k).1 hc))]
    unfold assign size
    rw [dif_neg h]
    simp

theorem length_filter_key (k : K) (es : List (K × V)) (hnd : (es.map Prod.fst).Nodup) :
    (es.filter (fun e => decide (e.1 ≠ k))).length
        + (if k ∈ es.map Prod.fst then 1 else 0) = es.length := by
  induction es with
  | nil => simp
  | cons e es ih =>
    simp only [List.map_cons, List.nodup_cons] at hnd
    have ih2 := ih hnd.2
    simp only [ne_eq] at ih2
    by_cases he : e.1 = k
    · have hk : k ∉ es.map Prod.fst := he ▸ hnd.1
      rw [if_neg hk] at ih2
      simp only [List.filter_cons, he, ne_eq, not_true_eq_false, decide_False,
        Bool.false_eq_true, if_false, List.map_cons, List.mem_cons, true_or, if_true,
        List.length_cons]
      omega
    · have hk : ¬ k = e.1 := fun h => he h.symm
      simp only [List.filter_cons, ne_eq, he, not_false_eq_true, decide_True, if_true,
        List.length_cons, List.map_cons, List.mem_cons, hk, false_or]
      omega

theorem size_erase (m : UMap K V) (k : K) :
    (m.erase k).size = if m.contains k = true then m.size - 1 else m.size := by
  have h := length_filter_key k m.entries m.nodup
  unfold erase size
  simp only
  by_cases hk : k ∈ m.entries.map Prod.fst
  · rw [if_pos ((contains_iff_mem_keys m k).2 hk)]
    rw [if_pos hk] at h
    omega
  · rw [if_neg (fun hc => hk ((contains_iff_mem_keys m k).1 hc))]
    rw [if_neg hk] at h
    omega

theorem contains_assign (m : UMap K V) (k k2 : K) (v : V) :
    (m.assign k v).contains k2 = if k2 = k then true else m.contains k2 := by
  unfold contains
  rw [find_assign]
  by_cases h : k2 = k <;> simp [h]

theorem contains_erase (m : UMap K V) (k k2 : K) :
    (m.erase k).contains k2 = if k2 = k then false else m.contains k2 := by
  unfold contains
  rw [find_erase]
  by_cases h : k2 = k <;> simp [h]

end UMap

/-! ## Claims about the registry -/

namespace PlayerManager

/-- C13: after `addPlayer id` the id exists and the count is the previous count plus 1 when
the id was absent, the previous count when it was present; after `removePlayer id` the id
does not exist and the count is the previous count minus 1 when the id was present (the
previous count is then positive), the previous count otherwise; in both cases the record of
every other id is unchanged. -/
theorem registry_add_remove (pm : PlayerManager) (id : Nat) :
    ((pm.addPlayer id).playerExists id = true ∧
      (pm.addPlayer id).getPlayerCount
        = (if pm.playerExists id = true then pm.getPlayerCount else pm.getPlayerCount + 1) ∧
      (∀ q, q ≠ id → (pm.addPlayer id).getPlayer q = pm.getPlayer q)) ∧
    ((pm.removePlayer id).playerExists id = false ∧
      (pm.removePlayer id).getPlayerCount
        = (if pm.playerExists id = true then pm.getPlayerCount - 1 else pm.getPlayerCount) ∧
      (pm.playerExists id = true → 0 < pm.getPlayerCount) ∧
      (∀ q, q ≠ id → (pm.removePlayer id).getPlayer q = pm.getPlayer q)) := by
  refine ⟨⟨?_, ?_, ?_⟩, ⟨?_, ?_, ?_, ?_⟩⟩
  · simp [addPlayer, playerExists, UMap.contains_assign]
  · simp only [addPlayer, getPlayerCount, playerExists, UMap.size_assign]
  · intro q hq
    simp [addPlayer, getPlayer, UMap.find_assign, hq]
  · simp [removePlayer, playerExists, UMap.contains_erase]
  · simp only [removePlayer, getPlayerCount, playerExists, UMap.size_erase]
  · intro h
    have := (UMap.contains_iff_mem_keys pm.m_players id).1 h
    unfold getPlayerCount UMap.size
    cases hes : pm.m_players.entries with
    | nil => simp [hes] at this
    | cons e es => simp
  · intro q hq
    simp [removePlayer, getPlayer, UMap.find_erase, hq]

/-- Scenario of C13: connect player 5 on the empty registry, then disconnect it; connecting
player 6 leaves the record of player 5 alone. -/
theorem registry_add_remove_witness :
    (PlayerManager.init.addPlayer 5).playerExists 5 = true ∧
    (PlayerManager.init.addPlayer 5).getPlayerCount = 1 ∧
    ((PlayerManager.init.addPlayer 5).removePlayer 5).playerExists 5 = false ∧
    ((PlayerManager.init.addPlayer 5).removePlayer 5).getPlayerCount = 0 ∧
    ((PlayerManager.init.addPlayer 5).addPlayer 6).getPlayer 5
      = (PlayerManager.init.addPlayer 5).getPlayer 5 :=
  ⟨(registry_add_remove PlayerManager.init 5).1.1,
    by decide,
    (registry_add_remove (PlayerManager.init.addPlayer 5) 5).2.1,
    by decide,
    (registry_add_remove (PlayerManager.init.addPlayer 5) 6).1.2.2 5 (by decide)⟩

end PlayerManager

namespace PlayerManager

/-- C14: for an id that is absent from the registry each of `setPlayerUsername`,
`setPlayerInMatch`, `updatePlayerLatency` and `updatePlayerPing` returns the registry it was
given; for an id that is present with record `p` each setter leaves the count and the record
of every other id unchanged, and turns the record of the id into `p` with only the fields of
that setter replaced. -/
theorem setters_frame (pm : PlayerManager) (id : Nat) (name : String) (b : Bool)
    (mid : String) (lat ts : Nat) :
    (pm.getPlayer id = none →
      pm.setPlayerUsername id name = pm ∧ pm.setPlayerInMatch id b mid = pm ∧
      pm.updatePlayerLatency id lat = pm ∧ pm.updatePlayerPing id ts = pm) ∧
    (∀ p, pm.getPlayer id = some p →
      ((pm.setPlayerUsername id name).getPlayer id = some { p with username := name } ∧
        (pm.setPlayerInMatch id b mid).getPlayer id
          = some { p with inMatch := b, currentMatchId := mid } ∧
        (pm.updatePlayerLatency id lat).getPlayer id = some { p with latency := lat } ∧
        (pm.updatePlayerPing id ts).getPlayer id = some { p with lastPingTime := ts }) ∧
      ((pm.setPlayerUsername id name).getPlayerCount = pm.getPlayerCount ∧
        (pm.setPlayerInMatch id b mid).getPlayerCount = pm.getPlayerCount ∧
        (pm.updatePlayerLatency id lat).getPlayerCount = pm.getPlayerCount ∧
        (pm.updatePlayerPing id ts).getPlayerCount = pm.getPlayerCount) ∧
      (∀ q, q ≠ id →
        (pm.setPlayerUsername id name).getPlayer q = pm.getPlayer q ∧
        (pm.setPlayerInMatch id b mid).getPlayer q = pm.getPlayer q ∧
        (pm.updatePlayerLatency id lat).getPlayer q = pm.getPlayer q ∧
        (pm.updatePlayerPing id ts).getPlayer q = pm.getPlayer q)) := by
  constructor
  · intro h
    unfold getPlayer at h
    simp only [setPlayerUsername, setPlayerInMatch, updatePlayerLatency, updatePlayerPing, h,
      and_self]
  · intro p h
    unfold getPlayer at h
    have hc : pm.m_players.contains id = true := by
      unfold UMap.contains
      rw [h]
      rfl
    refine ⟨?_, ?_, ?_⟩
    · simp only [setPlayerUsername, setPlayerInMatch, updatePlayerLatency, updatePlayerPing, h,
        getPlayer, UMap.find_assign, if_true, and_self]
    · simp only [setPlayerUsername, setPlayerInMatch, updatePlayerLatency, updatePlayerPing, h,
        getPlayerCount, UMap.size_assign, hc, if_true, and_self]
    · intro q hq
      simp only [setPlayerUsername, setPlayerInMatch, updatePlayerLatency, updatePlayerPing, h,
        getPlayer, UMap.find_assign, hq, if_false, and_self]

/-- Instance of C14: on the registry holding only player 5, the setters applied to the absent
id 6 change nothing, and applied to 5 they change only their own fields. -/
theorem setters_frame_witness :
    ((PlayerManager.init.addPlayer 5).getPlayer 6 = none ∧
      (PlayerManager.init.addPlayer 5).setPlayerUsername 6 "bob" = PlayerManager.init.addPlayer 5 ∧
      (PlayerManager.init.addPlayer 5).setPlayerInMatch 6 true "m"
        = PlayerManager.init.addPlayer 5) ∧
    ((PlayerManager.init.addPlayer 5).getPlayer 5 = some ⟨5, "Player5", false, "", 0, 0⟩ ∧
      ((PlayerManager.init.addPlayer 5).setPlayerUsername 5 "bob").getPlayer 5
        = some ⟨5, "bob", false, "", 0, 0⟩ ∧
      ((PlayerManager.init.addPlayer 5).updatePlayerPing 5 9).getPlayerCount
        = (PlayerManager.init.addPlayer 5).getPlayerCount) :=
  ⟨⟨by decide,
      ((setters_frame (PlayerManager.init.addPlayer 5) 6 "bob" true "m" 0 0).1 (by decide)).1,
      ((setters_frame (PlayerManager.init.addPlayer 5) 6 "bob" true "m" 0 0).1 (by decide)).2.1⟩,
    ⟨by decide,
      ((setters_frame (PlayerManager.init.addPlayer 5) 5 "bob" true "m" 0 9).2
        ⟨5, "Player5", false, "", 0, 0⟩ (by decide)).1.1,
      ((setters_frame (PlayerManager.init.addPlayer 5) 5 "bob" true "m" 0 9).2
        ⟨5, "Player5", false, "", 0, 0⟩ (by decide)).2.1.2.2.2⟩⟩

end PlayerManager

/-! ## More claims about the matchmaking pass -/

namespace MatchmakingSystem

/-- C12: when the queue holds fewer than 2 requests, `process` finishes at once, creates no
match and returns the state it was given (queue, match table, player-to-match index and
registry all equal). -/
theorem process_short_queue (env : Env) (fuel : Nat) (s : MatchmakingSystem)
    (h : s.m_queue.length < 2) :
    (process env fuel s).created = [] ∧ (process env fuel s).sys = s ∧
      (process env fuel s).finished = true := by
  unfold process
  rw [if_pos h]
  exact ⟨rfl, rfl, rfl⟩

/-- Scenario of C12: one queued request with `minPlayers = 3`, `maxPlayers = 4`; no match is
formed and the queue still has size 1. -/
theorem process_short_queue_witness :
    loneQueued.m_queue.length = 1 ∧
    ((process sampleEnv 3 loneQueued).created = [] ∧
      (process sampleEnv 3 loneQueued).sys = loneQueued ∧
      (process sampleEnv 3 loneQueued).finished = true) ∧
    (process sampleEnv 3 loneQueued).sys.m_queue.length = 1 :=
  ⟨by decide, process_short_queue sampleEnv 3 loneQueued (by decide), by decide⟩

end MatchmakingSystem

/-! ## A pass that never ends -/

namespace MatchmakingSystem

theorem toSizeT_zero : toSizeT 0 = 0 := by decide

theorem takeGroup_cap_zero (g : String) (reqs : List MatchmakingRequest) :
    takeGroup g 0 reqs [] = [] := by
  cases reqs <;> simp [takeGroup]

/-- The loop of one game mode never finishes on a vector of at least two requests whose
oldest request has `minPlayers = 0` and `maxPlayers = 0`: every iteration creates a match
without members and leaves the vector as it was. -/
theorem matchLoop_zero_bounds (env : Env) (g : String) (reqs : List MatchmakingRequest)
    (r0 : MatchmakingRequest) (hlen : 2 ≤ reqs.length) (hhead : reqs.head? = some r0)
    (hmin : r0.minPlayers = 0) (hmax : r0.maxPlayers = 0) (fuel : Nat) :
    ∀ (s : MatchmakingSystem) (log : List Match),
      (matchLoop env g fuel reqs s log).finished = false ∧
      (matchLoop env g fuel reqs s log).created.length = log.length + fuel := by
  induction fuel with
  | zero =>
    intro s log
    have : ¬ reqs.length < 2 := by omega
    simp [matchLoop, this]
  | succ fuel ih =>
    intro s log
    have hl : ¬ reqs.length < 2 := by omega
    unfold matchLoop
    rw [if_neg hl, hhead]
    simp only [hmin, hmax, toSizeT_zero, takeGroup_cap_zero, List.length_nil, le_refl, if_true]
    obtain ⟨h1, h2⟩ := ih
      { (createMatch env s (List.map (fun (req : MatchmakingRequest) => req.playerId) []) g).1 with
        m_queue := rebuildQueue
          (fun front => ([] : List MatchmakingRequest).any
            (fun req => decide (front.playerId = req.playerId)))
          (createMatch env s (List.map (fun (req : MatchmakingRequest) => req.playerId) []) g).1.m_queue [] }
      (log ++ [(createMatch env s (List.map (fun (req : MatchmakingRequest) => req.playerId) []) g).2])
    have he : eraseMatched [] reqs = reqs := rfl
    rw [he]
    refine ⟨h1, ?_⟩
    rw [h2]
    simp
    omega

/-- C17 (evaluation at the failing input): with players 1 and 2 queued for `duel` with
`minPlayers = 0` and `maxPlayers = 0`, the pass does not finish within any number of loop
iterations; after `fuel` iterations it has created `fuel` matches. -/
theorem process_zero_bounds_diverges (fuel : Nat) :
    (process sampleEnv fuel (duelQueued 0 0)).finished = false ∧
    (process sampleEnv fuel (duelQueued 0 0)).created.length = fuel := by
  have hg : sampleEnv.visit
      (groupByMode (duelQueued 0 0).m_playerManager (duelQueued 0 0).m_queue UMap.empty).entries
      = [("duel", (duelQueued 0 0).m_queue)] := by decide
  have hq : ¬ (duelQueued 0 0).m_queue.length < 2 := by decide
  obtain ⟨h1, h2⟩ := matchLoop_zero_bounds sampleEnv "duel" (duelQueued 0 0).m_queue
    ⟨1, "duel", 0, 0, 1⟩ (by decide) (by decide) rfl rfl fuel (duelQueued 0 0) []
  have hproc : process sampleEnv fuel (duelQueued 0 0)
      = matchGroups sampleEnv fuel [("duel", (duelQueued 0 0).m_queue)] (duelQueued 0 0) [] := by
    unfold process
    rw [if_neg hq]
    dsimp only
    rw [hg]
  rw [hproc]
  unfold matchGroups
  dsimp only
  rw [if_neg (by rw [h1]; exact Bool.false_ne_true)]
  exact ⟨h1, by simpa using h2⟩

end MatchmakingSystem

/-! ## The matches of a pass and the queue it leaves -/

namespace MatchmakingSystem

theorem takeGroup_eq (g : String) (cap : Nat) (reqs : List MatchmakingRequest) :
    ∀ acc : List MatchmakingRequest,
      takeGroup g cap reqs acc
        = acc ++ (reqs.filter (fun r => decide (r.gameMode = g))).take (cap - acc.length) := by
  induction reqs with
  | nil =>
    intro acc
    simp [takeGroup]
  | cons r rest ih =>
    intro acc
    unfold takeGroup
    by_cases hc : acc.length < cap
    · rw [if_pos hc]
      by_cases hg : r.gameMode = g
      · rw [if_pos hg, ih]
        have h1 : cap - acc.length = (cap - (acc ++ [r]).length) + 1 := by
          simp only [List.length_append, List.length_singleton]
          omega
        rw [h1]
        simp [List.filter_cons, hg]
      · rw [if_neg hg, ih]
        simp [List.filter_cons, hg]
    · rw [if_neg hc]
      have h1 : cap - acc.length = 0 := by omega
      rw [h1]
      simp

theorem eraseMatched_eq (grp : List MatchmakingRequest) :
    ∀ reqs : List MatchmakingRequest,
      eraseMatched grp reqs
        = reqs.filter (fun r => !grp.any (fun req => decide (r.playerId = req.playerId))) := by
  induction grp with
  | nil =>
    intro reqs
    simp [eraseMatched]
  | cons a grp ih =>
    intro reqs
    have h := ih (reqs.filter (fun r => decide (r.playerId ≠ a.playerId)))
    unfold eraseMatched at h ⊢
    rw [List.foldl_cons, h, List.filter_filter]
    apply List.filter_congr
    intro r _
    by_cases hra : r.playerId = a.playerId <;> simp [hra]

theorem mem_ids_iff_any (grp : List MatchmakingRequest) (p : Nat) :
    decide (p ∈ grp.map (fun req => req.playerId))
      = grp.any (fun req => decide (p = req.playerId)) := by
  rw [Bool.eq_iff_iff]
  simp only [List.mem_map, decide_eq_true_eq, List.any_eq_true]
  constructor
  · rintro ⟨r, hr, h⟩
    exact ⟨r, hr, h.symm⟩
  · rintro ⟨r, hr, h⟩
    exact ⟨r, hr, h.symm⟩

/-- The loop of one game mode appends matches to the log; the queue it leaves is the queue it
started from without the requests of the members of the appended matches; the members of the
appended matches are players of the vector the loop started from, and are pairwise distinct
when the players of that vector are. -/
theorem matchLoop_new (env : Env) (g : String) (fuel : Nat) :
    ∀ (reqs : List MatchmakingRequest) (s : MatchmakingSystem) (log : List Match),
      ∃ new : List Match,
        (matchLoop env g fuel reqs s log).created = log ++ new ∧
        (matchLoop env g fuel reqs s log).sys.m_queue
          = s.m_queue.filter
              (fun r => !new.any (fun m => decide (r.playerId ∈ m.players))) ∧
        (∀ p ∈ (new.map (fun m => m.players)).flatten,
          p ∈ reqs.map (fun r => r.playerId)) ∧
        ((reqs.map (fun r => r.playerId)).Nodup →
          (new.map (fun m => m.players)).flatten.Nodup) := by
  induction fuel with
  | zero =>
    intro reqs s log
    exact ⟨[], by simp [matchLoop]⟩
  | succ fuel ih =>
    intro reqs s log
    unfold matchLoop
    split
    · exact ⟨[], by simp⟩
    · split
      · exact ⟨[], by simp⟩
      · rename_i r0 _
        dsimp only
        split
        · obtain ⟨new, h1, h2, h3, h4⟩ := ih
            (eraseMatched (takeGroup g (toSizeT r0.maxPlayers) reqs []) reqs)
            { (createMatch env s
                ((takeGroup g (toSizeT r0.maxPlayers) reqs []).map (fun req => req.playerId))
                g).1 with
              m_queue := rebuildQueue
                (fun front => (takeGroup g (toSizeT r0.maxPlayers) reqs []).any
                  (fun req => decide (front.playerId = req.playerId)))
                (createMatch env s
                  ((takeGroup g (toSizeT r0.maxPlayers) reqs []).map
                    (fun req => req.playerId)) g).1.m_queue [] }
            (log ++ [(createMatch env s
                ((takeGroup g (toSizeT r0.maxPlayers) reqs []).map (fun req => req.playerId))
                g).2])
          refine ⟨(createMatch env s
                ((takeGroup g (toSizeT r0.maxPlayers) reqs []).map (fun req => req.playerId))
                g).2 :: new, ?_, ?_, ?_, ?_⟩
          · rw [h1]
            simp
          · rw [h2]
            simp only [rebuildQueue_eq, List.nil_append, createMatch_m_queue,
              List.filter_filter, createMatch_snd, List.any_cons, mem_ids_iff_any]
            apply List.filter_congr
            intro r _
            simp only [Bool.not_or, Bool.and_comm]
          · intro p hp
            simp only [List.map_cons, List.flatten_cons, List.mem_append, createMatch_snd]
              at hp
            rcases hp with hp | hp
            · simp only [List.mem_map] at hp ⊢
              obtain ⟨r, hr, hrp⟩ := hp
              rcases takeGroup_mem _ _ _ _ _ hr with h5 | ⟨h5, _⟩
              · simp at h5
              · exact ⟨r, h5, hrp⟩
            · have := h3 p hp
              simp only [List.mem_map] at this ⊢
              obtain ⟨r, hr, hrp⟩ := this
              exact ⟨r, eraseMatched_subset _ _ _ hr, hrp⟩
          · intro hnd
            simp only [List.map_cons, List.flatten_cons, createMatch_snd]
            rw [List.nodup_append]
            refine ⟨?_, ?_, ?_⟩
            · rw [takeGroup_eq]
              simp only [List.nil_append]
              exact (((List.take_sublist _ _).trans (List.filter_sublist _)).map _).nodup hnd
            · apply h4
              rw [eraseMatched_eq]
              exact ((List.filter_sublist _).map _).nodup hnd
            · intro p hp1 hp2
              have hp3 := h3 p hp2
              rw [eraseMatched_eq] at hp3
              simp only [List.mem_map, List.mem_filter, Bool.not_eq_true', List.any_eq_false,
                decide_eq_true_eq] at hp3 hp1
              obtain ⟨r, ⟨_, hr2⟩, hrp⟩ := hp3
              obtain ⟨r2, hr3, hrp2⟩ := hp1
              exact hr2 r2 hr3 (hrp.trans hrp2.symm)
        · exact ⟨[], by simp⟩

/-- The counterpart of `matchLoop_new` for the loop over the groups. -/
theorem matchGroups_new (env : Env) (fuel : Nat)
    (groups : List (String × List MatchmakingRequest)) :
    ∀ (s : MatchmakingSystem) (log : List Match),
      ∃ new : List Match,
        (matchGroups env fuel groups s log).created = log ++ new ∧
        (matchGroups env fuel groups s log).sys.m_queue
          = s.m_queue.filter
              (fun r => !new.any (fun m => decide (r.playerId ∈ m.players))) ∧
        (∀ p ∈ (new.map (fun m => m.players)).flatten,
          ∃ pair ∈ groups, p ∈ pair.2.map (fun r => r.playerId)) ∧
        ((∀ pair ∈ groups, (pair.2.map (fun r => r.playerId)).Nodup) →
          groups.Pairwise
            (fun a b => ∀ p, p ∈ a.2.map (fun r => r.playerId) →
              p ∉ b.2.map (fun r => r.playerId)) →
          (new.map (fun m => m.players)).flatten.Nodup) := by
  induction groups with
  | nil =>
    intro s log
    exact ⟨[], by simp [matchGroups]⟩
  | cons pair others ih =>
    intro s log
    obtain ⟨new1, a1, a2, a3, a4⟩ := matchLoop_new env pair.1 fuel pair.2 s log
    have key : ∃ new : List Match,
        (matchLoop env pair.1 fuel pair.2 s log).created = log ++ new ∧
        (matchLoop env pair.1 fuel pair.2 s log).sys.m_queue
          = s.m_queue.filter
              (fun r => !new.any (fun m => decide (r.playerId ∈ m.players))) ∧
        (∀ p ∈ (new.map (fun m => m.players)).flatten,
          ∃ pr ∈ pair :: others, p ∈ pr.2.map (fun r => r.playerId)) ∧
        ((∀ pr ∈ pair :: others, (pr.2.map (fun r => r.playerId)).Nodup) →
          (pair :: others).Pairwise
            (fun a b => ∀ p, p ∈ a.2.map (fun r => r.playerId) →
              p ∉ b.2.map (fun r => r.playerId)) →
          (new.map (fun m => m.players)).flatten.Nodup) :=
      ⟨new1, a1, a2, fun p hp => ⟨pair, List.mem_cons_self _ _, a3 p hp⟩,
        fun hnd _ => a4 (hnd pair (List.mem_cons_self _ _))⟩
    unfold matchGroups
    dsimp only
    split
    · obtain ⟨new2, b1, b2, b3, b4⟩ := ih (matchLoop env pair.1 fuel pair.2 s log).sys
        (matchLoop env pair.1 fuel pair.2 s log).created
      refine ⟨new1 ++ new2, ?_, ?_, ?_, ?_⟩
      · rw [b1, a1, List.append_assoc]
      · rw [b2, a2, List.filter_filter]
        apply List.filter_congr
        intro r _
        simp only [List.any_append, Bool.not_or, Bool.and_comm]
      · intro p hp
        simp only [List.map_append, List.flatten_append, List.mem_append] at hp
        rcases hp with hp | hp
        · exact ⟨pair, List.mem_cons_self _ _, a3 p hp⟩
        · obtain ⟨pr, hpr, h⟩ := b3 p hp
          exact ⟨pr, List.mem_cons_of_mem _ hpr, h⟩
      · intro hnd hpw
        rw [List.pairwise_cons] at hpw
        simp only [List.map_append, List.flatten_append]
        rw [List.nodup_append]
        refine ⟨a4 (hnd pair (List.mem_cons_self _ _)),
          b4 (fun pr hpr => hnd pr (List.mem_cons_of_mem _ hpr)) hpw.2, ?_⟩
        intro p hp1 hp2
        obtain ⟨pr, hpr, h⟩ := b3 p hp2
        exact hpw.1 pr hpr p (a3 p hp1) h
    · exact key

end MatchmakingSystem

/-! ## The groups of a pass are the game-mode partitions -/

namespace UMap

variable {K V : Type} [DecidableEq K]

theorem findIn_of_mem {k : K} {v : V} {es : List (K × V)} (hnd : (es.map Prod.fst).Nodup)
    (h : (k, v) ∈ es) : findIn k es = some v := by
  induction es with
  | nil => simp at h
  | cons e es ih =>
    simp only [List.map_cons, List.nodup_cons] at hnd
    rcases List.mem_cons.1 h with h1 | h1
    · subst h1
      simp [findIn]
    · have hne : ¬ e.1 = k := by
        intro he
        apply hnd.1
        rw [he]
        exact List.mem_map.2 ⟨(k, v), h1, rfl⟩
      simp only [findIn, hne, if_false]
      exact ih hnd.2 h1

theorem mem_entries_iff (m : UMap K V) (e : K × V) : e ∈ m.entries ↔ m.find e.1 = some e.2 :=
  ⟨fun h => findIn_of_mem m.nodup h, fun h => findIn_some_mem h⟩

end UMap

namespace MatchmakingSystem

/-- The vector the first loop of `process` builds under game mode `g`: the requests of
registered players with that game mode, in queue order, after what was there before. -/
theorem groupByMode_find (pm : PlayerManager) (g : String) (q : List MatchmakingRequest) :
    ∀ acc : UMap String (List MatchmakingRequest),
      (groupByMode pm q acc).find g
        = if q.filter (fun r => pm.playerExists r.playerId && decide (r.gameMode = g)) = []
          then acc.find g
          else some ((acc.find g).getD [] ++
            q.filter (fun r => pm.playerExists r.playerId && decide (r.gameMode = g))) := by
  induction q with
  | nil =>
    intro acc
    simp [groupByMode]
  | cons request tempQueue ih =>
    intro acc
    unfold groupByMode
    by_cases hex : pm.playerExists request.playerId = true
    · rw [if_pos hex, ih, UMap.find_assign]
      by_cases hg : request.gameMode = g
      · subst hg
        simp only [hex, if_true, List.filter_cons, decide_True, Bool.and_self,
          Option.getD_some]
        by_cases hn : tempQueue.filter
            (fun r => pm.playerExists r.playerId && decide (r.gameMode = request.gameMode)) = []
        · simp [hn]
        · simp [hn]
      · have hg2 : ¬ g = request.gameMode := fun h => hg h.symm
        simp only [hg2, if_false, List.filter_cons, hex, hg, decide_False, Bool.and_false,
          Bool.false_eq_true]
    · rw [if_neg hex, ih]
      simp only [List.filter_cons, hex, Bool.false_and, Bool.false_eq_true, if_false]

/-- Each group the pass visits is the game-mode partition of its key: the requests of
registered players with that game mode, in queue order. -/
theorem visited_group_eq (env : Env) (s : MatchmakingSystem)
    (pair : String × List MatchmakingRequest)
    (hp : pair ∈ env.visit (groupByMode s.m_playerManager s.m_queue UMap.empty).entries) :
    pair.2 = s.m_queue.filter
      (fun r => s.m_playerManager.playerExists r.playerId && decide (r.gameMode = pair.1)) := by
  have h1 := (env.visit_perm _).mem_iff.1 hp
  have h2 := (UMap.mem_entries_iff _ pair).1 h1
  rw [groupByMode_find] at h2
  split at h2
  · simp [UMap.find, UMap.empty, UMap.findIn] at h2
  · simp only [UMap.find, UMap.empty, UMap.findIn, Option.getD_none, List.nil_append,
      Option.some.injEq] at h2
    exact h2.symm

/-- A non-empty game-mode partition is one of the groups the pass visits. -/
theorem partition_visited (env : Env) (s : MatchmakingSystem) (g : String)
    (hne : s.m_queue.filter
      (fun r => s.m_playerManager.playerExists r.playerId && decide (r.gameMode = g)) ≠ []) :
    (g, s.m_queue.filter
      (fun r => s.m_playerManager.playerExists r.playerId && decide (r.gameMode = g)))
      ∈ env.visit (groupByMode s.m_playerManager s.m_queue UMap.empty).entries := by
  apply (env.visit_perm _).mem_iff.2
  apply (UMap.mem_entries_iff _ _).2
  rw [groupByMode_find, if_neg hne]
  simp [UMap.find, UMap.empty, UMap.findIn]

/-- The groups the pass visits have pairwise distinct keys. -/
theorem visited_keys_nodup (env : Env) (s : MatchmakingSystem) :
    ((env.visit (groupByMode s.m_playerManager s.m_queue UMap.empty).entries).map
      Prod.fst).Nodup :=
  (((env.visit_perm _).map Prod.fst).nodup_iff).2
    (groupByMode s.m_playerManager s.m_queue UMap.empty).nodup

/-- The matches of a pass and the queue it leaves, for the whole of `process`. -/
theorem process_new (env : Env) (fuel : Nat) (s : MatchmakingSystem) :
    (process env fuel s).sys.m_queue
        = s.m_queue.filter
          (fun r => !(process env fuel s).created.any
            (fun m => decide (r.playerId ∈ m.players))) ∧
    ((s.m_queue.map (fun r => r.playerId)).Nodup →
      ((process env fuel s).created.map (fun m => m.players)).flatten.Nodup) := by
  unfold process
  split
  · simp
  · dsimp only
    obtain ⟨new, h1, h2, _, h4⟩ := matchGroups_new env fuel
      (env.visit (groupByMode s.m_playerManager s.m_queue UMap.empty).entries) s []
    rw [List.nil_append] at h1
    rw [h1]
    refine ⟨h2, fun hnd => h4 ?_ ?_⟩
    · intro pair hpair
      rw [visited_group_eq env s pair hpair]
      exact ((List.filter_sublist _).map _).nodup hnd
    · have hk := visited_keys_nodup env s
      rw [List.Nodup, List.pairwise_map] at hk
      refine hk.imp_of_mem ?_
      intro a b ha hb hab p hpa hpb
      rw [visited_group_eq env s a ha] at hpa
      rw [visited_group_eq env s b hb] at hpb
      simp only [List.mem_map, List.mem_filter, Bool.and_eq_true, decide_eq_true_eq]
        at hpa hpb
      obtain ⟨r1, ⟨hr1, _, hg1⟩, hp1⟩ := hpa
      obtain ⟨r2, ⟨hr2, _, hg2⟩, hp2⟩ := hpb
      have : r1 = r2 := List.inj_on_of_nodup_map hnd hr1 hr2 (hp1.trans hp2.symm)
      subst this
      exact hab (hg1.symm.trans hg2)

end MatchmakingSystem

/-! ## Claims about the queue and the members after a pass -/

namespace MatchmakingSystem

/-- C18: the queue after `process` is the queue before it with exactly the requests removed
whose player is a member of some match created during the pass (every request of such a
player, whatever its game mode), all other requests kept in their order. -/
theorem process_queue_after (env : Env) (fuel : Nat) (s : MatchmakingSystem) :
    (process env fuel s).sys.m_queue
      = s.m_queue.filter
          (fun r => decide (¬ ∃ m ∈ (process env fuel s).created, r.playerId ∈ m.players)) := by
  rw [(process_new env fuel s).1]
  apply List.filter_congr
  intro r _
  rw [Bool.eq_iff_iff]
  simp

/-- C20: when no player owns more than one request of the queue, the member lists of the
matches created by `process`, put one after the other, hold no player twice: every match has
pairwise distinct members, and no player is a member of two matches of the pass. -/
theorem process_members_distinct (env : Env) (fuel : Nat) (s : MatchmakingSystem)
    (hnd : (s.m_queue.map (fun r => r.playerId)).Nodup) :
    ((process env fuel s).created.map (fun m => m.players)).flatten.Nodup ∧
    (∀ m ∈ (process env fuel s).created, m.players.Nodup) ∧
    (process env fuel s).created.Pairwise
      (fun m1 m2 => ∀ p, p ∈ m1.players → p ∉ m2.players) := by
  have h := (process_new env fuel s).2 hnd
  refine ⟨h, ?_, ?_⟩
  · intro m hm
    rw [List.nodup_flatten] at h
    exact h.1 m.players (List.mem_map.2 ⟨m, hm, rfl⟩)
  · rw [List.nodup_flatten] at h
    have h2 := h.2
    rw [List.pairwise_map] at h2
    exact h2.imp (fun hd p hp1 hp2 => hd hp1 hp2)

/-- Instance of C20: the three requests of `trioQueued` belong to three players. -/
theorem process_members_distinct_witness :
    (trioQueued.m_queue.map (fun r => r.playerId)).Nodup ∧
    (((process sampleEnv 1 trioQueued).created.map (fun m => m.players)).flatten.Nodup ∧
      (∀ m ∈ (process sampleEnv 1 trioQueued).created, m.players.Nodup) ∧
      (process sampleEnv 1 trioQueued).created.Pairwise
        (fun m1 m2 => ∀ p, p ∈ m1.players → p ∉ m2.players)) :=
  ⟨by decide, process_members_distinct sampleEnv 1 trioQueued (by decide)⟩

end MatchmakingSystem

/-! ## The first match of a partition -/

namespace MatchmakingSystem

theorem toSizeT_of_nonneg (v : Int) (h0 : 0 ≤ v) (h1 : v < 2 ^ 64) : toSizeT v = v.toNat := by
  unfold toSizeT
  rw [Int.emod_eq_of_lt h0 h1]

theorem matchLoop_log_subset (env : Env) (g : String) (fuel : Nat)
    (reqs : List MatchmakingRequest) (s : MatchmakingSystem) (log : List Match) (m : Match)
    (h : m ∈ log) : m ∈ (matchLoop env g fuel reqs s log).created := by
  obtain ⟨new, h1, _⟩ := matchLoop_new env g fuel reqs s log
  rw [h1]
  exact List.mem_append_left _ h

theorem matchGroups_log_subset (env : Env) (fuel : Nat)
    (groups : List (String × List MatchmakingRequest)) (s : MatchmakingSystem)
    (log : List Match) (m : Match) (h : m ∈ log) :
    m ∈ (matchGroups env fuel groups s log).created := by
  obtain ⟨new, h1, _⟩ := matchGroups_new env fuel groups s log
  rw [h1]
  exact List.mem_append_left _ h

/-- When the loop over the groups ran to its end, the loop of each group ran to its end, and
what it created is among the matches of the pass. -/
theorem matchGroups_finished (env : Env) (fuel : Nat)
    (groups : List (String × List MatchmakingRequest)) :
    ∀ (s : MatchmakingSystem) (log : List Match),
      (matchGroups env fuel groups s log).finished = true →
      ∀ pair ∈ groups, ∃ (s1 : MatchmakingSystem) (log1 : List Match),
        (matchLoop env pair.1 fuel pair.2 s1 log1).finished = true ∧
        ∀ m ∈ (matchLoop env pair.1 fuel pair.2 s1 log1).created,
          m ∈ (matchGroups env fuel groups s log).created := by
  induction groups with
  | nil =>
    intro s log _ pair hp
    simp at hp
  | cons first others ih =>
    intro s log hfin pair hp
    unfold matchGroups at hfin ⊢
    dsimp only at hfin ⊢
    by_cases hf : (matchLoop env first.1 fuel first.2 s log).finished = true
    · rw [if_pos hf] at hfin ⊢
      rcases List.mem_cons.1 hp with h1 | h1
      · subst h1
        exact ⟨s, log, hf, fun m hm => matchGroups_log_subset _ _ _ _ _ m hm⟩
      · exact ih _ _ hfin pair h1
    · rw [if_neg hf] at hfin
      exact absurd hfin hf

/-- The first iteration of the loop of one game mode, on a vector of at least two requests of
that game mode whose oldest request `R` has `0 ≤ minPlayers ≤ min (size, maxPlayers)`. -/
theorem matchLoop_first (env : Env) (g : String) (fuel : Nat) (reqs : List MatchmakingRequest)
    (s : MatchmakingSystem) (log : List Match) (R : MatchmakingRequest)
    (hhead : reqs.head? = some R) (hlen : 2 ≤ reqs.length)
    (hmode : ∀ r ∈ reqs, r.gameMode = g) (hmin : 0 ≤ R.minPlayers)
    (hle : R.minPlayers ≤ min (reqs.length : Int) R.maxPlayers) (hmax : R.maxPlayers < 2 ^ 64)
    (hfin : (matchLoop env g fuel reqs s log).finished = true) :
    ∃ m ∈ (matchLoop env g fuel reqs s log).created,
      m.gameMode = g ∧
      m.players
        = (reqs.take (min (reqs.length : Int) R.maxPlayers).toNat).map
            (fun r => r.playerId) := by
  have hl : ¬ reqs.length < 2 := by omega
  have hmax0 : 0 ≤ R.maxPlayers := le_trans hmin (le_trans hle (min_le_right _ _))
  have hgrp : takeGroup g (toSizeT R.maxPlayers) reqs [] = reqs.take R.maxPlayers.toNat := by
    rw [takeGroup_eq, toSizeT_of_nonneg _ hmax0 hmax, List.filter_eq_self.2]
    · simp
    · intro r hr
      simp [hmode r hr]
  have htake : reqs.take (min (reqs.length : Int) R.maxPlayers).toNat
      = reqs.take R.maxPlayers.toNat := by
    by_cases hc : (reqs.length : Int) ≤ R.maxPlayers
    · rw [min_eq_left hc, Int.toNat_ofNat, List.take_of_length_le (le_refl _),
        List.take_of_length_le (by omega)]
    · rw [min_eq_right (by omega)]
  cases fuel with
  | zero =>
    simp [matchLoop, hl] at hfin
  | succ fuel =>
    have hcond : toSizeT R.minPlayers ≤ (reqs.take R.maxPlayers.toNat).length := by
      rw [toSizeT_of_nonneg _ hmin (lt_of_le_of_lt (le_trans hle (min_le_right _ _)) hmax),
        List.length_take]
      have h1 := le_trans hle (min_le_left _ _)
      have h2 := le_trans hle (min_le_right _ _)
      omega
    unfold matchLoop
    rw [if_neg hl, hhead]
    dsimp only
    rw [hgrp, if_pos hcond]
    refine ⟨_, matchLoop_log_subset _ _ _ _ _ _ _ (List.mem_append_right _
      (List.mem_singleton_self _)), rfl, ?_⟩
    rw [createMatch_snd, htake]

end MatchmakingSystem

/-! ## The first match of a partition in a finished pass -/

namespace MatchmakingSystem

/-- The first match of a game-mode partition, for a pass that ran to its end. -/
theorem first_group_of_finished (env : Env) (fuel : Nat) (s : MatchmakingSystem) (g : String)
    (R : MatchmakingRequest) (hhead : (modePartition s g).head? = some R)
    (hsize : 2 ≤ (modePartition s g).length) (hmin : 0 ≤ R.minPlayers)
    (hle : R.minPlayers ≤ min ((modePartition s g).length : Int) R.maxPlayers)
    (hmax : R.maxPlayers < 2 ^ 64) (hfin : (process env fuel s).finished = true) :
    ∃ m ∈ (process env fuel s).created,
      m.gameMode = g ∧
      m.players
        = ((modePartition s g).take
            (min ((modePartition s g).length : Int) R.maxPlayers).toNat).map
            (fun r => r.playerId) := by
  have hne : modePartition s g ≠ [] := by
    intro h
    rw [h] at hsize
    simp at hsize
  have hq : ¬ s.m_queue.length < 2 := by
    have := List.length_filter_le
      (fun r => s.m_playerManager.playerExists r.playerId && decide (r.gameMode = g)) s.m_queue
    unfold modePartition at hsize
    omega
  have hvis := partition_visited env s g hne
  unfold process at hfin ⊢
  rw [if_neg hq] at hfin ⊢
  dsimp only at hfin ⊢
  obtain ⟨s1, log1, h1, h2⟩ := matchGroups_finished env fuel _ s [] hfin _ hvis
  have hmode : ∀ r ∈ modePartition s g, r.gameMode = g := by
    intro r hr
    unfold modePartition at hr
    simp only [List.mem_filter, Bool.and_eq_true, decide_eq_true_eq] at hr
    exact hr.2.2
  obtain ⟨m, hm, hg, hp⟩ := matchLoop_first env g fuel (modePartition s g) s1 log1 R hhead
    hsize hmode hmin hle hmax h1
  exact ⟨m, h2 m hm, hg, hp⟩

end MatchmakingSystem

/-! ## Soundness of the player-to-match index -/

namespace MatchmakingSystem

theorem indexSound_init (pm : PlayerManager) : IndexSound (init pm) := by
  intro p M h
  simp [init, UMap.find, UMap.empty, UMap.findIn] at h

theorem indexSound_removePlayer (s : MatchmakingSystem) (q : Nat) (h : IndexSound s) :
    IndexSound (removePlayer s q) := by
  intro p M hp
  rw [removePlayer_m_playerToMatch, UMap.find_erase] at hp
  by_cases hpq : p = q
  · simp [hpq] at hp
  · rw [if_neg hpq] at hp
    obtain ⟨mt, hM, hmem⟩ := h p M hp
    unfold removePlayer
    dsimp only
    cases hq : s.m_playerToMatch.find q with
    | none => exact ⟨mt, hM, hmem⟩
    | some M2 =>
      dsimp only
      cases hM2 : s.m_matches.find M2 with
      | none => exact ⟨mt, hM, hmem⟩
      | some mt2 =>
        dsimp only
        by_cases hMM : M = M2
        · subst hMM
          rw [hM2] at hM
          have hmt : mt2 = mt := Option.some.inj hM
          subst hmt
          have hin : p ∈ mt2.players.filter (fun x => decide (x ≠ q)) := by
            simp [List.mem_filter, hmem, hpq]
          have hne : (mt2.players.filter (fun x => decide (x ≠ q))).isEmpty = false := by
            cases hl : mt2.players.filter (fun x => decide (x ≠ q)) with
            | nil => rw [hl] at hin; simp at hin
            | cons a l => rfl
          rw [hne]
          simp only [Bool.false_eq_true, if_false, UMap.find_assign, if_true]
          exact ⟨_, rfl, hin⟩
        · split
          · simp only [UMap.find_erase, hMM, if_false]
            exact ⟨mt, hM, hmem⟩
          · simp only [UMap.find_assign, hMM, if_false]
            exact ⟨mt, hM, hmem⟩

theorem indexSound_endMatch (s : MatchmakingSystem) (M0 : String) (h : IndexSound s) :
    IndexSound (endMatch s M0) := by
  unfold endMatch
  cases hM0 : s.m_matches.find M0 with
  | none => exact h
  | some mt0 =>
    dsimp only
    obtain ⟨h1, _, _, h4, _⟩ := endMatch_fold mt0.players s
    intro p M hp
    dsimp only at hp ⊢
    rw [h4 p] at hp
    by_cases hin : p ∈ mt0.players
    · simp [hin] at hp
    · rw [if_neg hin] at hp
      obtain ⟨mt, hM, hmem⟩ := h p M hp
      have hne : M ≠ M0 := by
        intro he
        subst he
        rw [hM0] at hM
        have hmt : mt0 = mt := Option.some.inj hM
        subst hmt
        exact hin hmem
      rw [UMap.find_erase, if_neg hne, h1]
      exact ⟨mt, hM, hmem⟩

/-- What `createMatch` does to the generator state, the match table and the index. -/
theorem createMatch_fields (env : Env) (s : MatchmakingSystem) (ps : List Nat) (g : String) :
    (createMatch env s ps g).1.idsGenerated = s.idsGenerated + 1 ∧
    (createMatch env s ps g).1.m_matches
      = s.m_matches.assign (env.matchIdAt s.idsGenerated) (createMatch env s ps g).2 ∧
    (∀ p, (createMatch env s ps g).1.m_playerToMatch.find p
      = if p ∈ ps then some (env.matchIdAt s.idsGenerated) else s.m_playerToMatch.find p) := by
  unfold createMatch
  dsimp only
  obtain ⟨h1, _, h3, h4, _⟩ := createMatch_fold (env.matchIdAt s.idsGenerated) ps
    { s with
      idsGenerated := s.idsGenerated + 1
      m_matches := s.m_matches.assign (env.matchIdAt s.idsGenerated)
        ⟨env.matchIdAt s.idsGenerated, ps, g, env.clockAt s.idsGenerated, true⟩ }
  exact ⟨h3, h1, h4⟩

theorem indexSound_createMatch (env : Env) (s : MatchmakingSystem) (ps : List Nat)
    (g : String) (h : IndexSound s)
    (hfresh : s.m_matches.find (env.matchIdAt s.idsGenerated) = none) :
    IndexSound (createMatch env s ps g).1 := by
  obtain ⟨_, h2, h3⟩ := createMatch_fields env s ps g
  intro p M hp
  rw [h3 p] at hp
  rw [h2, UMap.find_assign]
  by_cases hin : p ∈ ps
  · rw [if_pos hin] at hp
    cases hp
    exact ⟨_, by rw [if_pos rfl], by rw [createMatch_snd]; exact hin⟩
  · rw [if_neg hin] at hp
    obtain ⟨mt, hM, hmem⟩ := h p M hp
    have hne : M ≠ env.matchIdAt s.idsGenerated := by
      intro he
      rw [he, hfresh] at hM
      cases hM
    rw [if_neg hne]
    exact ⟨mt, hM, hmem⟩

theorem matchLoop_ids_le (env : Env) (g : String) (fuel : Nat) :
    ∀ (reqs : List MatchmakingRequest) (s : MatchmakingSystem) (log : List Match),
      s.idsGenerated ≤ (matchLoop env g fuel reqs s log).sys.idsGenerated := by
  induction fuel with
  | zero =>
    intro reqs s log
    simp [matchLoop]
  | succ fuel ih =>
    intro reqs s log
    unfold matchLoop
    split
    · exact le_refl _
    · split
      · exact le_refl _
      · dsimp only
        split
        · refine le_trans ?_ (ih _ _ _)
          dsimp only
          rw [(createMatch_fields env s _ g).1]
          exact Nat.le_succ _
        · exact le_refl _

theorem matchGroups_ids_le (env : Env) (fuel : Nat)
    (groups : List (String × List MatchmakingRequest)) :
    ∀ (s : MatchmakingSystem) (log : List Match),
      s.idsGenerated ≤ (matchGroups env fuel groups s log).sys.idsGenerated := by
  induction groups with
  | nil =>
    intro s log
    simp [matchGroups]
  | cons pair others ih =>
    intro s log
    unfold matchGroups
    dsimp only
    split
    · exact le_trans (matchLoop_ids_le env pair.1 fuel pair.2 s log) (ih _ _)
    · exact matchLoop_ids_le env pair.1 fuel pair.2 s log

/-- The loop of one game mode keeps the index sound as long as the tokens it generates are
fresh. -/
theorem matchLoop_sound (env : Env) (g : String) (K : Nat) (fuel : Nat) :
    ∀ (reqs : List MatchmakingRequest) (s : MatchmakingSystem) (log : List Match),
      IndexSound s → FreshUpTo env K s →
      (matchLoop env g fuel reqs s log).sys.idsGenerated ≤ K →
      IndexSound (matchLoop env g fuel reqs s log).sys ∧
        FreshUpTo env K (matchLoop env g fuel reqs s log).sys := by
  induction fuel with
  | zero =>
    intro reqs s log h1 h2 _
    exact ⟨h1, h2⟩
  | succ fuel ih =>
    intro reqs s log h1 h2 hK
    unfold matchLoop at hK ⊢
    split at hK
    · rename_i hc
      rw [if_pos hc]
      exact ⟨h1, h2⟩
    · rename_i hc
      rw [if_neg hc]
      split at hK
      · exact ⟨h1, h2⟩
      · dsimp only at hK ⊢
        split at hK
        · rename_i hcond
          rw [if_pos hcond]
          obtain ⟨f1, f2, _⟩ := createMatch_fields env s
            ((takeGroup g (toSizeT _) reqs []).map (fun req => req.playerId)) g
          have hlt : s.idsGenerated < K := by
            have := matchLoop_ids_le env g fuel _ _ _ |>.trans hK
            dsimp only at this
            rw [f1] at this
            omega
          have hfresh := h2.1 s.idsGenerated (le_refl _) hlt
          apply ih _ _ _ _ _ hK
          · exact indexSound_createMatch env s _ g h1 hfresh
          · constructor
            · intro n hn hnK
              dsimp only at hn ⊢
              rw [f1] at hn
              rw [f2, UMap.find_assign, if_neg (h2.2 s.idsGenerated n (le_refl _) hn hnK).symm]
              exact h2.1 n (by omega) hnK
            · intro n m hn hnm hmK
              dsimp only at hn
              rw [f1] at hn
              exact h2.2 n m (by omega) hnm hmK
        · rename_i hcond
          rw [if_neg hcond]
          exact ⟨h1, h2⟩

theorem matchGroups_sound (env : Env) (K : Nat) (fuel : Nat)
    (groups : List (String × List MatchmakingRequest)) :
    ∀ (s : MatchmakingSystem) (log : List Match),
      IndexSound s → FreshUpTo env K s →
      (matchGroups env fuel groups s log).sys.idsGenerated ≤ K →
      IndexSound (matchGroups env fuel groups s log).sys := by
  induction groups with
  | nil =>
    intro s log h1 _ _
    exact h1
  | cons pair others ih =>
    intro s log h1 h2 hK
    unfold matchGroups at hK ⊢
    dsimp only at hK ⊢
    split at hK
    · rename_i hf
      rw [if_pos hf]
      obtain ⟨g1, g2⟩ := matchLoop_sound env pair.1 K fuel pair.2 s log h1 h2
        (le_trans (matchGroups_ids_le env fuel others _ _) hK)
      exact ih _ _ g1 g2 hK
    · rename_i hf
      rw [if_neg hf]
      exact (matchLoop_sound env pair.1 K fuel pair.2 s log h1 h2 hK).1

theorem freshUpTo_of_freshIds (env : Env) (fuel : Nat) (s : MatchmakingSystem)
    (h : FreshIds env fuel s) :
    FreshUpTo env (process env fuel s).sys.idsGenerated s := by
  obtain ⟨hnd, habs⟩ := h
  unfold passTokens at hnd habs
  constructor
  · intro n hn hnK
    have hmem : env.matchIdAt n ∈ (List.range
        ((process env fuel s).sys.idsGenerated - s.idsGenerated)).map
        (fun i => env.matchIdAt (s.idsGenerated + i)) := by
      refine List.mem_map.2 ⟨n - s.idsGenerated, List.mem_range.2 (by omega), ?_⟩
      congr 1
      omega
    have := habs _ hmem
    unfold UMap.contains at this
    cases hf : s.m_matches.find (env.matchIdAt n) with
    | none => rfl
    | some v => rw [hf] at this; simp at this
  · intro n m hn hnm hmK heq
    have := List.inj_on_of_nodup_map hnd
      (List.mem_range.2 (show n - s.idsGenerated
        < (process env fuel s).sys.idsGenerated - s.idsGenerated by omega))
      (List.mem_range.2 (show m - s.idsGenerated
        < (process env fuel s).sys.idsGenerated - s.idsGenerated by omega))
      (by
        have e1 : s.idsGenerated + (n - s.idsGenerated) = n := by omega
        have e2 : s.idsGenerated + (m - s.idsGenerated) = m := by omega
        simp only [e1, e2]
        exact heq)
    omega

theorem process_sound (env : Env) (fuel : Nat) (s : MatchmakingSystem) (h : IndexSound s)
    (hfresh : FreshIds env fuel s) : IndexSound (process env fuel s).sys := by
  have h2 := freshUpTo_of_freshIds env fuel s hfresh
  generalize hK : (process env fuel s).sys.idsGenerated = K at h2
  unfold process at hK ⊢
  split
  · exact h
  · rename_i hc
    rw [if_neg hc] at hK
    dsimp only at hK ⊢
    exact matchGroups_sound env K fuel _ s [] h h2 (le_of_eq hK)

theorem indexSound_of_reachable (s0 s : MatchmakingSystem) (h0 : IndexSound s0)
    (h : ReachableFrom s0 s) : IndexSound s := by
  induction h with
  | start => exact h0
  | registryAdd s playerId _ ih => exact ih
  | registryRemove s playerId _ ih => exact ih
  | enqueue s now playerId gameMode minPlayers maxPlayers _ ih => exact ih
  | cancel s playerId _ ih => exact indexSound_removePlayer s playerId ih
  | pass env fuel s _ _ hfresh ih => exact process_sound env fuel s ih hfresh
  | finish s matchId _ ih => exact indexSound_endMatch s matchId ih

/-- The state `duelMatched` is reached from the empty server: connect players 1 and 2,
queue both for `duel`, run one pass. -/
theorem duelMatched_reachable : ReachableFrom (init PlayerManager.init) duelMatched :=
  ReachableFrom.pass sampleEnv 1 (duelQueued 2 2)
    (ReachableFrom.enqueue _ 2 2 "duel" 2 2
      (ReachableFrom.enqueue _ 1 1 "duel" 2 2
        (ReachableFrom.registryAdd _ 2
          (ReachableFrom.registryAdd _ 1 ReachableFrom.start))))
    (by decide) (by unfold FreshIds; decide)

end MatchmakingSystem

/-! ## Claims about reachable states -/

namespace MatchmakingSystem

/-- C15 (evaluation at the failing input): the state after connecting players 1 and 2,
queueing both for `duel`, one pass and `removePlayer 1` is reachable from the empty server;
in it player 1 is registered with `currentMatchId = match0`, and `match0` is in the match
table with member list `[2]`, which does not contain player 1. -/
theorem cancel_breaks_registry_link :
    ReachableFrom (init PlayerManager.init) (removePlayer duelMatched 1) ∧
    (removePlayer duelMatched 1).m_playerManager.getPlayer 1
      = some ⟨1, "Player1", true, "match0", 0, 0⟩ ∧
    (removePlayer duelMatched 1).m_matches.find "match0"
      = some ⟨"match0", [2], "duel", 0, true⟩ ∧
    (1 : Nat) ∉ [2] :=
  ⟨ReachableFrom.cancel _ 1 duelMatched_reachable, by decide, by decide, by decide⟩

/-- C19: in every state reached from the empty engine (over any registry) by completed calls
of `queuePlayer`, `removePlayer`, `process` and `endMatch` (and of the registry operations),
each pass generating fresh match ids, every entry `p -> M` of the player-to-match index is
such that `M` is in the match table and `p` is in the member list of `M`. -/
theorem index_sound (pm : PlayerManager) (s : MatchmakingSystem)
    (h : ReachableFrom (init pm) s) :
    ∀ p M, s.m_playerToMatch.find p = some M →
      ∃ mt, s.m_matches.find M = some mt ∧ p ∈ mt.players :=
  indexSound_of_reachable _ _ (indexSound_init pm) h

/-- Instance of C19: in the reachable state `duelMatched` player 1 is mapped to `match0`. -/
theorem index_sound_witness :
    duelMatched.m_playerToMatch.find 1 = some "match0" ∧
    ∃ mt, duelMatched.m_matches.find "match0" = some mt ∧ 1 ∈ mt.players :=
  ⟨by decide,
    index_sound PlayerManager.init duelMatched duelMatched_reachable 1 "match0" (by decide)⟩

end MatchmakingSystem

/-! ## The state a pass leaves: what `createMatch` stored -/

namespace MatchmakingSystem

/-- Writing into a lookup function match by match: a key no match writes keeps its value. -/
theorem foldl_write_skip {X Y : Type} (step : (X → Y) → Match → X → Y)
    (c : Match → X → Prop) (v : Match → Y → Y) [∀ m x, Decidable (c m x)]
    (hstep : ∀ f m y, step f m y = if c m y then v m (f y) else f y) (x : X) :
    ∀ (ms : List Match) (f : X → Y), (∀ m ∈ ms, ¬ c m x) → ms.foldl step f x = f x := by
  intro ms
  induction ms with
  | nil =>
    intro f _
    rfl
  | cons m ms ih =>
    intro f h
    rw [List.foldl_cons, ih _ (fun m2 hm2 => h m2 (List.mem_cons_of_mem _ hm2)), hstep,
      if_neg (h m (List.mem_cons_self _ _))]

/-- Writing into a lookup function match by match: the last match that writes a key decides
its value. -/
theorem foldl_write_last {X Y : Type} (step : (X → Y) → Match → X → Y)
    (c : Match → X → Prop) (v : Match → Y → Y) [∀ m x, Decidable (c m x)]
    (hstep : ∀ f m y, step f m y = if c m y then v m (f y) else f y) (x : X)
    (l1 : List Match) (m : Match) (l2 : List Match) (f : X → Y) (hc : c m x)
    (h2 : ∀ m2 ∈ l2, ¬ c m2 x) :
    (l1 ++ m :: l2).foldl step f x = v m (l1.foldl step f x) := by
  rw [List.foldl_append, List.foldl_cons, foldl_write_skip step c v hstep x l2 _ h2, hstep,
    if_pos hc]

theorem createMatch_getPlayer (env : Env) (s : MatchmakingSystem) (ps : List Nat)
    (g : String) (p : Nat) :
    (createMatch env s ps g).1.m_playerManager.getPlayer p
      = if p ∈ ps then
          (s.m_playerManager.getPlayer p).map
            (fun r => { r with inMatch := true, currentMatchId := env.matchIdAt s.idsGenerated })
        else s.m_playerManager.getPlayer p := by
  unfold createMatch
  dsimp only
  obtain ⟨_, _, _, _, h5⟩ := createMatch_fold (env.matchIdAt s.idsGenerated) ps
    { s with
      idsGenerated := s.idsGenerated + 1
      m_matches := s.m_matches.assign (env.matchIdAt s.idsGenerated)
        ⟨env.matchIdAt s.idsGenerated, ps, g, env.clockAt s.idsGenerated, true⟩ }
  exact h5 p

/-- One iteration of the loop of one game mode: either the loop ends, or `createMatch` is
called on the players of the collected group and the loop goes on. -/
theorem matchLoop_succ (env : Env) (g : String) (fuel : Nat) (reqs : List MatchmakingRequest)
    (s : MatchmakingSystem) (log : List Match) :
    matchLoop env g (fuel + 1) reqs s log = ⟨s, log, true⟩ ∨
    ∃ (r0 : MatchmakingRequest) (grp : List MatchmakingRequest)
      (cm : MatchmakingSystem × Match) (q : List MatchmakingRequest),
      reqs.head? = some r0 ∧
      grp = takeGroup g (toSizeT r0.maxPlayers) reqs [] ∧
      toSizeT r0.minPlayers ≤ grp.length ∧
      cm = createMatch env s (grp.map (fun req => req.playerId)) g ∧
      matchLoop env g (fuel + 1) reqs s log
        = matchLoop env g fuel (eraseMatched grp reqs) { cm.1 with m_queue := q }
            (log ++ [cm.2]) := by
  rw [matchLoop]
  split
  · exact Or.inl rfl
  · split
    · exact Or.inl rfl
    · rename_i r0 hr0
      dsimp only
      split
      · rename_i hcond
        exact Or.inr ⟨r0, takeGroup g (toSizeT r0.maxPlayers) reqs [],
          createMatch env s
            ((takeGroup g (toSizeT r0.maxPlayers) reqs []).map (fun req => req.playerId)) g,
          rebuildQueue
            (fun front => (takeGroup g (toSizeT r0.maxPlayers) reqs []).any
              (fun req => decide (front.playerId = req.playerId)))
            (createMatch env s
              ((takeGroup g (toSizeT r0.maxPlayers) reqs []).map (fun req => req.playerId))
              g).1.m_queue [],
          hr0, rfl, hcond, rfl, rfl⟩
      · exact Or.inl rfl

/-- The loop of one game mode changes the generator state, the match table, the
player-to-match index and the registry exactly by what `createMatch` stores for the matches
it appends to the log, in order; their tokens are the next tokens of the generator. -/
theorem matchLoop_state (env : Env) (g : String) (fuel : Nat) :
    ∀ (reqs : List MatchmakingRequest) (s : MatchmakingSystem) (log : List Match),
      ∃ new : List Match,
        (matchLoop env g fuel reqs s log).created = log ++ new ∧
        (matchLoop env g fuel reqs s log).sys.idsGenerated = s.idsGenerated + new.length ∧
        new.map (fun m => m.matchId)
          = (List.range new.length).map (fun i => env.matchIdAt (s.idsGenerated + i)) ∧
        (∀ M, (matchLoop env g fuel reqs s log).sys.m_matches.find M
          = new.foldl (fun f m M => if M = m.matchId then some m else f M)
              s.m_matches.find M) ∧
        (∀ p, (matchLoop env g fuel reqs s log).sys.m_playerToMatch.find p
          = new.foldl (fun f m p => if p ∈ m.players then some m.matchId else f p)
              s.m_playerToMatch.find p) ∧
        (∀ p, (matchLoop env g fuel reqs s log).sys.m_playerManager.getPlayer p
          = new.foldl
              (fun f m p =>
                if p ∈ m.players then
                  (f p).map (fun r => { r with inMatch := true, currentMatchId := m.matchId })
                else f p)
              s.m_playerManager.getPlayer p) := by
  induction fuel with
  | zero =>
    intro reqs s log
    exact ⟨[], by simp [matchLoop]⟩
  | succ fuel ih =>
    intro reqs s log
    rcases matchLoop_succ env g fuel reqs s log with h | ⟨_, grp, cm, q, _, _, _, hcm, h⟩
    · rw [h]
      exact ⟨[], by simp⟩
    · rw [h]
      obtain ⟨new, h1, h2, h3, h4, h5, h6⟩ := ih (eraseMatched grp reqs)
        { cm.1 with m_queue := q } (log ++ [cm.2])
      obtain ⟨f1, f2, f3⟩ := createMatch_fields env s (grp.map (fun req => req.playerId)) g
      have f4 := createMatch_getPlayer env s (grp.map (fun req => req.playerId)) g
      have e1 : cm.2.matchId = env.matchIdAt s.idsGenerated := by rw [hcm]; rfl
      have e2 : cm.2.players = grp.map (fun req => req.playerId) := by rw [hcm]; rfl
      rw [← hcm] at f1 f2 f3 f4
      dsimp only at h2 h3 h4 h5 h6
      have hT : cm.1.m_matches.find
          = fun M => if M = cm.2.matchId then some cm.2 else s.m_matches.find M := by
        funext M
        rw [f2, UMap.find_assign, e1]
      have hI : cm.1.m_playerToMatch.find
          = fun p => if p ∈ cm.2.players then some cm.2.matchId else s.m_playerToMatch.find p := by
        funext p
        rw [f3 p, e1, e2]
      have hR : cm.1.m_playerManager.getPlayer
          = fun p => if p ∈ cm.2.players then
              (s.m_playerManager.getPlayer p).map
                (fun r => { r with inMatch := true, currentMatchId := cm.2.matchId })
            else s.m_playerManager.getPlayer p := by
        funext p
        rw [f4 p, e1, e2]
      refine ⟨cm.2 :: new, ?_, ?_, ?_, ?_, ?_, ?_⟩
      · rw [h1]
        simp
      · rw [h2, f1, List.length_cons]
        omega
      · rw [List.map_cons, h3, f1, List.length_cons, List.range_succ_eq_map,
          List.map_cons, List.map_map, e1]
        refine congrArg₂ _ rfl (List.map_congr_left ?_)
        intro i _
        show env.matchIdAt (s.idsGenerated + 1 + i) = env.matchIdAt (s.idsGenerated + (i + 1))
        congr 1
        omega
      · intro M
        rw [h4 M, List.foldl_cons, hT]
      · intro p
        rw [h5 p, List.foldl_cons, hI]
      · intro p
        rw [h6 p, List.foldl_cons, hR]

/-- The counterpart of `matchLoop_state` for the loop over the groups. -/
theorem matchGroups_state (env : Env) (fuel : Nat)
    (groups : List (String × List MatchmakingRequest)) :
    ∀ (s : MatchmakingSystem) (log : List Match),
      ∃ new : List Match,
        (matchGroups env fuel groups s log).created = log ++ new ∧
        (matchGroups env fuel groups s log).sys.idsGenerated = s.idsGenerated + new.length ∧
        new.map (fun m => m.matchId)
          = (List.range new.length).map (fun i => env.matchIdAt (s.idsGenerated + i)) ∧
        (∀ M, (matchGroups env fuel groups s log).sys.m_matches.find M
          = new.foldl (fun f m M => if M = m.matchId then some m else f M)
              s.m_matches.find M) ∧
        (∀ p, (matchGroups env fuel groups s log).sys.m_playerToMatch.find p
          = new.foldl (fun f m p => if p ∈ m.players then some m.matchId else f p)
              s.m_playerToMatch.find p) ∧
        (∀ p, (matchGroups env fuel groups s log).sys.m_playerManager.getPlayer p
          = new.foldl
              (fun f m p =>
                if p ∈ m.players then
                  (f p).map (fun r => { r with inMatch := true, currentMatchId := m.matchId })
                else f p)
              s.m_playerManager.getPlayer p) := by
  induction groups with
  | nil =>
    intro s log
    exact ⟨[], by simp [matchGroups]⟩
  | cons pair others ih =>
    intro s log
    obtain ⟨new1, a1, a2, a3, a4, a5, a6⟩ := matchLoop_state env pair.1 fuel pair.2 s log
    rw [matchGroups]
    split
    · obtain ⟨new2, b1, b2, b3, b4, b5, b6⟩ := ih (matchLoop env pair.1 fuel pair.2 s log).sys
        (matchLoop env pair.1 fuel pair.2 s log).created
      have hT : (matchLoop env pair.1 fuel pair.2 s log).sys.m_matches.find
          = new1.foldl (fun f m M => if M = m.matchId then some m else f M)
              s.m_matches.find := funext a4
      have hI : (matchLoop env pair.1 fuel pair.2 s log).sys.m_playerToMatch.find
          = new1.foldl (fun f m p => if p ∈ m.players then some m.matchId else f p)
              s.m_playerToMatch.find := funext a5
      have hR : (matchLoop env pair.1 fuel pair.2 s log).sys.m_playerManager.getPlayer
          = new1.foldl
              (fun f m p =>
                if p ∈ m.players then
                  (f p).map (fun r => { r with inMatch := true, currentMatchId := m.matchId })
                else f p)
              s.m_playerManager.getPlayer := funext a6
      refine ⟨new1 ++ new2, ?_, ?_, ?_, ?_, ?_, ?_⟩
      · rw [b1, a1, List.append_assoc]
      · rw [b2, a2, List.length_append]
        omega
      · rw [List.map_append, a3, b3, a2, List.length_append, List.range_add, List.map_append,
          List.map_map]
        refine congrArg₂ _ rfl (List.map_congr_left ?_)
        intro i _
        show env.matchIdAt (s.idsGenerated + new1.length + i)
          = env.matchIdAt (s.idsGenerated + (new1.length + i))
        congr 1
        omega
      · intro M
        rw [b4 M, hT, List.foldl_append]
      · intro p
        rw [b5 p, hI, List.foldl_append]
      · intro p
        rw [b6 p, hR, List.foldl_append]
    · exact ⟨new1, a1, a2, a3, a4, a5, a6⟩

/-- What a pass stores: the generator state, the match table, the player-to-match index and
the registry after `process` are those before it with the matches of `created` stored in
order; the tokens of these matches are the tokens generated during the pass. -/
theorem process_state (env : Env) (fuel : Nat) (s : MatchmakingSystem) :
    (process env fuel s).sys.idsGenerated = s.idsGenerated + (process env fuel s).created.length ∧
    (process env fuel s).created.map (fun m => m.matchId) = passTokens env fuel s ∧
    (∀ M, (process env fuel s).sys.m_matches.find M
      = (process env fuel s).created.foldl (fun f m M => if M = m.matchId then some m else f M)
          s.m_matches.find M) ∧
    (∀ p, (process env fuel s).sys.m_playerToMatch.find p
      = (process env fuel s).created.foldl
          (fun f m p => if p ∈ m.players then some m.matchId else f p)
          s.m_playerToMatch.find p) ∧
    (∀ p, (process env fuel s).sys.m_playerManager.getPlayer p
      = (process env fuel s).created.foldl
          (fun f m p =>
            if p ∈ m.players then
              (f p).map (fun r => { r with inMatch := true, currentMatchId := m.matchId })
            else f p)
          s.m_playerManager.getPlayer p) := by
  have key : ∃ new : List Match,
      (process env fuel s).created = new ∧
      (process env fuel s).sys.idsGenerated = s.idsGenerated + new.length ∧
      new.map (fun m => m.matchId)
        = (List.range new.length).map (fun i => env.matchIdAt (s.idsGenerated + i)) ∧
      (∀ M, (process env fuel s).sys.m_matches.find M
        = new.foldl (fun f m M => if M = m.matchId then some m else f M)
            s.m_matches.find M) ∧
      (∀ p, (process env fuel s).sys.m_playerToMatch.find p
        = new.foldl (fun f m p => if p ∈ m.players then some m.matchId else f p)
            s.m_playerToMatch.find p) ∧
      (∀ p, (process env fuel s).sys.m_playerManager.getPlayer p
        = new.foldl
            (fun f m p =>
              if p ∈ m.players then
                (f p).map (fun r => { r with inMatch := true, currentMatchId := m.matchId })
              else f p)
            s.m_playerManager.getPlayer p) := by
    rw [process]
    split
    · exact ⟨[], by simp⟩
    · dsimp only
      obtain ⟨new, h1, h2⟩ := matchGroups_state env fuel
        (env.visit (groupByMode s.m_playerManager s.m_queue UMap.empty).entries) s []
      rw [List.nil_append] at h1
      exact ⟨new, h1, h2⟩
  obtain ⟨new, h1, h2, h3, h4, h5, h6⟩ := key
  rw [h1]
  refine ⟨h2, ?_, h4, h5, h6⟩
  unfold passTokens
  rw [h2, h3]
  congr 2
  omega

theorem exists_last_of_mem {α : Type} (P : α → Prop) :
    ∀ l : List α, (∃ a ∈ l, P a) →
      ∃ (l1 : List α) (a : α) (l2 : List α), l = l1 ++ a :: l2 ∧ P a ∧ ∀ b ∈ l2, ¬ P b := by
  intro l
  induction l with
  | nil =>
    rintro ⟨a, ha, _⟩
    simp at ha
  | cons x l ih =>
    rintro ⟨a, ha, hP⟩
    by_cases htail : ∃ b ∈ l, P b
    · obtain ⟨l1, b, l2, h1, h2, h3⟩ := ih htail
      exact ⟨x :: l1, b, l2, by rw [h1]; rfl, h2, h3⟩
    · have hx : P x := by
        rcases List.mem_cons.1 ha with h | h
        · exact h ▸ hP
        · exact absurd ⟨a, h, hP⟩ htail
      exact ⟨[], x, l, rfl, hx, fun b hb hPb => htail ⟨b, hb, hPb⟩⟩

/-- Storing further matches does not change what a registry record becomes once its match
fields are set. -/
theorem registry_fold_map (mid : String) (p : Nat) :
    ∀ (l : List Match) (f : Nat → Option Player),
      ((l.foldl
          (fun f m p =>
            if p ∈ m.players then
              (f p).map (fun r => { r with inMatch := true, currentMatchId := m.matchId })
            else f p)
          f) p).map (fun r => { r with inMatch := true, currentMatchId := mid })
        = (f p).map (fun r => { r with inMatch := true, currentMatchId := mid }) := by
  intro l
  induction l with
  | nil =>
    intro f
    rfl
  | cons a l ih =>
    intro f
    rw [List.foldl_cons, ih]
    by_cases hp : p ∈ a.players
    · rw [if_pos hp, Option.map_map]
      rfl
    · rw [if_neg hp]

/-- When the tokens generated during the pass are pairwise distinct, every match the pass
created is in the match table under its id. -/
theorem process_table_of_nodup (env : Env) (fuel : Nat) (s : MatchmakingSystem)
    (hnd : (passTokens env fuel s).Nodup) :
    ∀ m ∈ (process env fuel s).created,
      (process env fuel s).sys.m_matches.find m.matchId = some m := by
  intro m hm
  obtain ⟨_, h2, h3, _, _⟩ := process_state env fuel s
  rw [← h2] at hnd
  obtain ⟨l1, l2, hl⟩ := List.append_of_mem hm
  rw [h3, hl]
  rw [hl, List.map_append, List.map_cons, List.nodup_append, List.nodup_cons] at hnd
  have h := foldl_write_last (fun f (m : Match) M => if M = m.matchId then some m else f M)
    (fun m M => M = m.matchId) (fun m _ => some m) (fun _ _ _ => rfl) m.matchId l1 m l2
    s.m_matches.find rfl
    (fun m2 hm2 he => hnd.2.1.1 (List.mem_map.2 ⟨m2, hm2, he.symm⟩))
  exact h

/-- An id that is not the token of a match of the pass has the same entry in the match table
before and after the pass. -/
theorem process_table_other (env : Env) (fuel : Nat) (s : MatchmakingSystem) (M : String)
    (hM : M ∉ passTokens env fuel s) :
    (process env fuel s).sys.m_matches.find M = s.m_matches.find M := by
  obtain ⟨_, h2, h3, _, _⟩ := process_state env fuel s
  rw [← h2] at hM
  rw [h3]
  exact foldl_write_skip (fun f (m : Match) M => if M = m.matchId then some m else f M)
    (fun m M => M = m.matchId) (fun m _ => some m) (fun _ _ _ => rfl) M _ _
    (fun m hm he => hM (List.mem_map.2 ⟨m, hm, he.symm⟩))

/-- Every member of a match of the pass is mapped, in the index and in the registry, to a
match of the pass that lists the member (the last such match). -/
theorem process_members_mapped (env : Env) (fuel : Nat) (s : MatchmakingSystem) :
    ∀ m ∈ (process env fuel s).created, ∀ p ∈ m.players,
      ∃ m2 ∈ (process env fuel s).created, p ∈ m2.players ∧
        (process env fuel s).sys.m_playerToMatch.find p = some m2.matchId ∧
        (process env fuel s).sys.m_playerManager.getPlayer p
          = (s.m_playerManager.getPlayer p).map
              (fun r => { r with inMatch := true, currentMatchId := m2.matchId }) := by
  intro m hm p hp
  obtain ⟨_, _, _, h4, h5⟩ := process_state env fuel s
  obtain ⟨l1, m2, l2, hl, hp2, hlast⟩ :=
    exists_last_of_mem (fun m : Match => p ∈ m.players) _ ⟨m, hm, hp⟩
  refine ⟨m2, by rw [hl]; simp, hp2, ?_, ?_⟩
  · rw [h4, hl]
    exact foldl_write_last (fun f (m : Match) p => if p ∈ m.players then some m.matchId else f p)
      (fun m p => p ∈ m.players) (fun m _ => some m.matchId) (fun _ _ _ => rfl) p l1 m2 l2
      s.m_playerToMatch.find hp2 hlast
  · rw [h5, hl]
    have h := foldl_write_last
      (fun f (m : Match) p =>
        if p ∈ m.players then
          (f p).map (fun r : Player => { r with inMatch := true, currentMatchId := m.matchId })
        else f p)
      (fun m p => p ∈ m.players)
      (fun m o => o.map (fun r : Player => { r with inMatch := true, currentMatchId := m.matchId }))
      (fun _ _ _ => rfl) p l1 m2 l2 s.m_playerManager.getPlayer hp2 hlast
    rw [h]
    exact registry_fold_map m2.matchId p l1 _

/-- When no player owns more than one request of the queue, every member of a match of the
pass is mapped to that match in the index and in the registry. -/
theorem process_members_mapped_distinct (env : Env) (fuel : Nat) (s : MatchmakingSystem)
    (hnd : (s.m_queue.map (fun r => r.playerId)).Nodup) :
    ∀ m ∈ (process env fuel s).created, ∀ p ∈ m.players,
      (process env fuel s).sys.m_playerToMatch.find p = some m.matchId ∧
      (process env fuel s).sys.m_playerManager.getPlayer p
        = (s.m_playerManager.getPlayer p).map
            (fun r => { r with inMatch := true, currentMatchId := m.matchId }) := by
  intro m hm p hp
  obtain ⟨m2, hm2, hp2, h1, h2⟩ := process_members_mapped env fuel s m hm p hp
  have hflat := (process_new env fuel s).2 hnd
  have heq : m2 = m := by
    by_contra hne
    rw [List.nodup_flatten] at hflat
    have hpw := hflat.2
    rw [List.pairwise_map] at hpw
    have hsym : ∀ a b : Match, List.Disjoint a.players b.players →
        List.Disjoint b.players a.players := fun a b h => h.symm
    have := hpw.forall (fun a b h => hsym a b h) hm2 hm hne
    exact this hp2 hp
  subst heq
  exact ⟨h1, h2⟩

end MatchmakingSystem

/-! ## Passes that run to their end -/

namespace MatchmakingSystem

theorem toSizeT_eq_zero_iff (v : Int) (h : IsInt v) : toSizeT v = 0 ↔ v = 0 := by
  unfold IsInt at h
  unfold toSizeT
  have e1 : (2 : Int) ^ 64 = 18446744073709551616 := by norm_num
  have e2 : (2 : Int) ^ 31 = 2147483648 := by norm_num
  rw [e2] at h
  rw [e1]
  omega

/-- The loop of one game mode runs to its end within as many iterations as its vector has
requests, when no request of the vector has both bounds equal to 0 as `size_t`: every
iteration that creates a match removes the oldest request. -/
theorem matchLoop_finishes (env : Env) (g : String) (fuel : Nat) :
    ∀ (reqs : List MatchmakingRequest) (s : MatchmakingSystem) (log : List Match),
      reqs.length ≤ fuel →
      (∀ r ∈ reqs, r.gameMode = g) →
      (∀ r ∈ reqs, ¬ (toSizeT r.minPlayers = 0 ∧ toSizeT r.maxPlayers = 0)) →
      (matchLoop env g fuel reqs s log).finished = true := by
  induction fuel with
  | zero =>
    intro reqs s log hlen _ _
    have : reqs.length < 2 := by omega
    simp [matchLoop, this]
  | succ fuel ih =>
    intro reqs s log hlen hmode hnz
    rcases matchLoop_succ env g fuel reqs s log with h | ⟨r0, grp, cm, q, hr0, hgrp, hcond, _, h⟩
    · rw [h]
    · rw [h]
      obtain ⟨rest, hreqs⟩ := List.head?_eq_some_iff.1 hr0
      have hr0mem : r0 ∈ reqs := by rw [hreqs]; exact List.mem_cons_self _ _
      have hgrp2 : grp = reqs.take (toSizeT r0.maxPlayers) := by
        rw [hgrp, takeGroup_eq, List.filter_eq_self.2]
        · simp
        · intro r hr
          simp [hmode r hr]
      have hcap : toSizeT r0.maxPlayers ≠ 0 := by
        intro h0
        rw [hgrp2, h0] at hcond
        simp only [List.take_zero, List.length_nil, Nat.le_zero_eq] at hcond
        exact hnz r0 hr0mem ⟨hcond, h0⟩
      have hin : r0 ∈ grp := by
        rw [hgrp2, hreqs]
        obtain ⟨c, hc⟩ := Nat.exists_eq_succ_of_ne_zero hcap
        rw [hc, List.take_succ_cons]
        exact List.mem_cons_self _ _
      have hlt : (eraseMatched grp reqs).length < reqs.length := by
        rw [eraseMatched_eq]
        apply List.length_filter_lt_length_iff_exists.2
        refine ⟨r0, hr0mem, ?_⟩
        simp only [Bool.not_eq_true', Bool.not_eq_false, List.any_eq_true, decide_eq_true_eq]
        exact ⟨r0, hin, rfl⟩
      exact ih _ _ _ (by omega)
        (fun r hr => hmode r (eraseMatched_subset _ _ _ hr))
        (fun r hr => hnz r (eraseMatched_subset _ _ _ hr))

theorem matchGroups_finishes (env : Env) (fuel : Nat)
    (groups : List (String × List MatchmakingRequest)) :
    ∀ (s : MatchmakingSystem) (log : List Match),
      (∀ pair ∈ groups, pair.2.length ≤ fuel ∧ (∀ r ∈ pair.2, r.gameMode = pair.1) ∧
        ∀ r ∈ pair.2, ¬ (toSizeT r.minPlayers = 0 ∧ toSizeT r.maxPlayers = 0)) →
      (matchGroups env fuel groups s log).finished = true := by
  induction groups with
  | nil =>
    intro s log _
    rfl
  | cons pair others ih =>
    intro s log h
    obtain ⟨h1, h2, h3⟩ := h pair (List.mem_cons_self _ _)
    have hf := matchLoop_finishes env pair.1 fuel pair.2 s log h1 h2 h3
    rw [matchGroups]
    rw [if_pos hf]
    exact ih _ _ (fun pr hpr => h pr (List.mem_cons_of_mem _ hpr))

/-- A pass over a queue in which no request has both bounds equal to 0 runs to its end within
as many loop iterations per game mode as the queue has requests. -/
theorem process_finishes (env : Env) (fuel : Nat) (s : MatchmakingSystem)
    (hfuel : s.m_queue.length ≤ fuel)
    (hnz : ∀ r ∈ s.m_queue, ¬ (toSizeT r.minPlayers = 0 ∧ toSizeT r.maxPlayers = 0)) :
    (process env fuel s).finished = true := by
  rw [process]
  split
  · rfl
  · dsimp only
    apply matchGroups_finishes
    intro pair hpair
    refine ⟨?_, ?_, ?_⟩
    · rw [visited_group_eq env s pair hpair]
      exact le_trans (List.length_filter_le _ _) hfuel
    · intro r hr
      exact (visited_groups_mem env s pair hpair r hr).2.2
    · intro r hr
      exact hnz r (visited_groups_mem env s pair hpair r hr).1

/-- Every match of a pass carries the game mode of some queued request. -/
theorem process_created_mode (env : Env) (fuel : Nat) (s : MatchmakingSystem) :
    ∀ m ∈ (process env fuel s).created, ∃ r ∈ s.m_queue, r.gameMode = m.gameMode := by
  intro m hm
  rw [process] at hm
  split at hm
  · simp at hm
  · dsimp only at hm
    rcases matchGroups_created env fuel _ s [] m hm with h1 | ⟨pair, hpair, hg, _⟩
    · simp at h1
    · have hne : pair.2 ≠ [] := by
        have h1 := (env.visit_perm _).mem_iff.1 hpair
        have h2 := (UMap.mem_entries_iff _ pair).1 h1
        rw [groupByMode_find] at h2
        split at h2
        · simp [UMap.find, UMap.empty, UMap.findIn] at h2
        · rename_i hpart
          simp only [UMap.find, UMap.empty, UMap.findIn, Option.getD_none, List.nil_append,
            Option.some.injEq] at h2
          rw [← h2]
          exact hpart
      obtain ⟨r, rest, hr⟩ := List.exists_cons_of_ne_nil hne
      have hmem : r ∈ pair.2 := by rw [hr]; exact List.mem_cons_self _ _
      obtain ⟨k1, _, k3⟩ := visited_groups_mem env s pair hpair r hmem
      exact ⟨r, k1, k3.trans hg.symm⟩

/-- A run of calls of `queuePlayer` appends one request per call at the tail of the queue, in
call order, and changes nothing else. -/
theorem queuePlayer_foldl (g : String) (mn mx : Int) :
    ∀ (reqs : List (Nat × Nat)) (s0 : MatchmakingSystem),
      (reqs.foldl (fun acc e => acc.queuePlayer e.2 e.1 g mn mx) s0).m_queue
          = s0.m_queue ++ reqs.map (fun e => ⟨e.1, g, mn, mx, e.2⟩) ∧
      (reqs.foldl (fun acc e => acc.queuePlayer e.2 e.1 g mn mx) s0).m_playerManager
          = s0.m_playerManager ∧
      (reqs.foldl (fun acc e => acc.queuePlayer e.2 e.1 g mn mx) s0).m_matches
          = s0.m_matches ∧
      (reqs.foldl (fun acc e => acc.queuePlayer e.2 e.1 g mn mx) s0).m_playerToMatch
          = s0.m_playerToMatch ∧
      (reqs.foldl (fun acc e => acc.queuePlayer e.2 e.1 g mn mx) s0).idsGenerated
          = s0.idsGenerated := by
  intro reqs
  induction reqs with
  | nil =>
    intro s0
    simp
  | cons e reqs ih =>
    intro s0
    obtain ⟨h1, h2, h3, h4, h5⟩ := ih (s0.queuePlayer e.2 e.1 g mn mx)
    rw [List.foldl_cons]
    refine ⟨?_, h2, h3, h4, h5⟩
    rw [h1]
    simp [queuePlayer]

end MatchmakingSystem

/-! ## Claim about a queue of duels -/

namespace MatchmakingSystem

/-- C1: let `k ≥ 2` requests of pairwise distinct registered players, all of game mode `g` and
all with `minPlayers = maxPlayers = 2`, be queued by `queuePlayer` on an empty queue (`reqs`
lists player id and clock reading of each call, in call order). A pass that is given at least
`k / 2` loop iterations then runs to its end and creates exactly `k / 2` matches: the `i`-th
(from 0) has the `i`-th token of the pass as id, has as members the players of the calls
`2 i` and `2 i + 1`, in that order, and has game mode `g`. Afterwards the queue is empty when
`k` is even and holds exactly the last request when `k` is odd; every member of a created
match is mapped to it in the player-to-match index and has `inMatch = true` and that match id
in its registry record; every created match is in the match table under its id when the
tokens of the pass are pairwise distinct, and the entries of all other ids are unchanged. -/
theorem process_pairs_fifo (env : Env) (fuel : Nat) (s0 s : MatchmakingSystem) (g : String)
    (reqs : List (Nat × Nat))
    (hempty : s0.m_queue = [])
    (hs : s = reqs.foldl (fun acc e => acc.queuePlayer e.2 e.1 g 2 2) s0)
    (hk : 2 ≤ reqs.length)
    (hreg : ∀ e ∈ reqs, s0.m_playerManager.playerExists e.1 = true)
    (hdistinct : (reqs.map Prod.fst).Nodup)
    (hfuel : reqs.length / 2 ≤ fuel) :
    (process env fuel s).finished = true ∧
    (process env fuel s).created.length = reqs.length / 2 ∧
    (process env fuel s).created.map (fun m => m.players)
      = (List.range (reqs.length / 2)).map
          (fun i => ((reqs.drop (2 * i)).take 2).map Prod.fst) ∧
    (process env fuel s).created.map (fun m => m.matchId)
      = (List.range (reqs.length / 2)).map (fun i => env.matchIdAt (s0.idsGenerated + i)) ∧
    (∀ m ∈ (process env fuel s).created, m.gameMode = g) ∧
    (process env fuel s).sys.m_queue
      = (if reqs.length % 2 = 0 then []
          else (reqs.getLast?.map (fun e => (⟨e.1, g, 2, 2, e.2⟩ : MatchmakingRequest))).toList) ∧
    (∀ m ∈ (process env fuel s).created, ∀ p ∈ m.players,
      (process env fuel s).sys.m_playerToMatch.find p = some m.matchId ∧
      (process env fuel s).sys.m_playerManager.getPlayer p
        = (s0.m_playerManager.getPlayer p).map
            (fun r => { r with inMatch := true, currentMatchId := m.matchId })) ∧
    ((passTokens env fuel s).Nodup →
      ∀ m ∈ (process env fuel s).created,
        (process env fuel s).sys.m_matches.find m.matchId = some m) ∧
    (∀ M, M ∉ passTokens env fuel s →
      (process env fuel s).sys.m_matches.find M = s0.m_matches.find M) := by
  obtain ⟨q1, q2, q3, _, q5⟩ := queuePlayer_foldl g 2 2 reqs s0
  rw [← hs, hempty, List.nil_append] at q1
  rw [← hs] at q2 q3 q5
  have hlen : s.m_queue.length = reqs.length := by rw [q1, List.length_map]
  have hids : s.m_queue.map (fun r => r.playerId) = reqs.map Prod.fst := by
    rw [q1, List.map_map]
    rfl
  have hmode : ∀ r ∈ s.m_queue, r.gameMode = g ∧ r.minPlayers = 2 ∧ r.maxPlayers = 2 := by
    intro r hr
    rw [q1] at hr
    obtain ⟨e, _, he⟩ := List.mem_map.1 hr
    subst he
    exact ⟨rfl, rfl, rfl⟩
  have hreg2 : ∀ r ∈ s.m_queue, s.m_playerManager.playerExists r.playerId = true := by
    intro r hr
    rw [q1] at hr
    obtain ⟨e, he1, he⟩ := List.mem_map.1 hr
    subst he
    rw [q2]
    exact hreg e he1
  have hnd : (s.m_queue.map (fun r => r.playerId)).Nodup := by rw [hids]; exact hdistinct
  obtain ⟨d1, d2, d3, d4⟩ := process_duels env fuel s g (by omega) hreg2 hnd hmode (by omega)
  obtain ⟨_, t2, _⟩ := process_state env fuel s
  rw [hlen] at d2 d3 d4
  refine ⟨d1, d2, ?_, ?_, ?_, ?_, ?_, ?_, ?_⟩
  · rw [d3]
    apply List.map_congr_left
    intro i _
    rw [q1, ← List.map_drop, ← List.map_take, List.map_map]
    rfl
  · rw [t2]
    unfold passTokens
    rw [(process_state env fuel s).1, d2, q5]
    congr 2
    omega
  · intro m hm
    obtain ⟨r, hr, hg⟩ := process_created_mode env fuel s m hm
    rw [← hg]
    exact (hmode r hr).1
  · rw [d4]
    split
    · rfl
    · rw [q1, List.getLast?_map]
  · intro m hm p hp
    have := process_members_mapped_distinct env fuel s hnd m hm p hp
    rw [q2] at this
    exact this
  · exact process_table_of_nodup env fuel s
  · intro M hM
    rw [process_table_other env fuel s M hM, q3]

/-- Scenario of C1: players 1, 2, 3 are queued in that order for `duel` with bounds 2 and 2;
the queue holds their requests in call order, the pass creates the one match `match0` with
members 1 and 2, stores it in the table, maps both members to it, sets their registry records,
and leaves the request of player 3 queued. -/
theorem process_pairs_fifo_witness :
    trioQueued.m_queue
      = [⟨1, "duel", 2, 2, 1⟩, ⟨2, "duel", 2, 2, 2⟩, ⟨3, "duel", 2, 2, 3⟩] ∧
    (process sampleEnv 1 trioQueued).finished = true ∧
    (process sampleEnv 1 trioQueued).created = [⟨"match0", [1, 2], "duel", 0, true⟩] ∧
    (process sampleEnv 1 trioQueued).sys.m_queue = [⟨3, "duel", 2, 2, 3⟩] ∧
    (process sampleEnv 1 trioQueued).sys.m_matches.find "match0"
      = some ⟨"match0", [1, 2], "duel", 0, true⟩ ∧
    (process sampleEnv 1 trioQueued).sys.m_matches.size = 1 ∧
    (process sampleEnv 1 trioQueued).sys.m_playerToMatch.find 2 = some "match0" ∧
    (process sampleEnv 1 trioQueued).sys.m_playerManager.getPlayer 2
      = some ⟨2, "Player2", true, "match0", 0, 0⟩ :=
  have h := process_pairs_fifo sampleEnv 1
    (init (((PlayerManager.init.addPlayer 1).addPlayer 2).addPlayer 3)) trioQueued "duel"
    [(1, 1), (2, 2), (3, 3)] rfl rfl (by decide) (by decide) (by decide) (by decide)
  ⟨by decide, by decide, by decide, h.2.2.2.2.2.1,
    h.2.2.2.2.2.2.2.1 (by decide) ⟨"match0", [1, 2], "duel", 0, true⟩ (by decide),
    by decide,
    (h.2.2.2.2.2.2.1 ⟨"match0", [1, 2], "duel", 0, true⟩ (by decide) 2 (by decide)).1,
    by decide⟩

end MatchmakingSystem

/-! ## Claim about the first match of a partition -/

namespace MatchmakingSystem

/-- With the groups visited in insertion order, the pass over `idleThenDuel` never gets past
the group of `idle`: it does not finish, and no match of another game mode is created. -/
theorem idleThenDuel_stuck (fuel : Nat) :
    (process sampleEnv fuel idleThenDuel).finished = false ∧
    ∀ m ∈ (process sampleEnv fuel idleThenDuel).created, m.gameMode = "idle" := by
  have hg : sampleEnv.visit
      (groupByMode idleThenDuel.m_playerManager idleThenDuel.m_queue UMap.empty).entries
      = [("idle", [⟨1, "idle", 0, 0, 1⟩, ⟨2, "idle", 0, 0, 2⟩]),
          ("duel", [⟨3, "duel", 2, 2, 3⟩, ⟨4, "duel", 2, 2, 4⟩])] := by decide
  have hq : ¬ idleThenDuel.m_queue.length < 2 := by decide
  obtain ⟨h1, _⟩ := matchLoop_zero_bounds sampleEnv "idle"
    [⟨1, "idle", 0, 0, 1⟩, ⟨2, "idle", 0, 0, 2⟩] ⟨1, "idle", 0, 0, 1⟩ (by decide) rfl rfl rfl
    fuel idleThenDuel []
  have hproc : process sampleEnv fuel idleThenDuel
      = matchLoop sampleEnv "idle" fuel [⟨1, "idle", 0, 0, 1⟩, ⟨2, "idle", 0, 0, 2⟩]
          idleThenDuel [] := by
    rw [process, if_neg hq]
    dsimp only
    rw [hg, matchGroups]
    dsimp only
    rw [if_neg (by rw [h1]; exact Bool.false_ne_true)]
  rw [hproc]
  refine ⟨h1, ?_⟩
  intro m hm
  rcases matchLoop_created sampleEnv "idle" fuel _ _ _ m hm with h | h
  · simp at h
  · exact h.1

/-- C11 (as stated, refuted), three passes that start with 2 or more queued requests and in
which a partition that meets the condition of the claim gets no match: in `soloPair` the
partition of `solo` is a single request with `minPlayers = 1`; in `duelQueued (-1) 2` the
partition of `duel` holds two requests with `minPlayers = -1 ≤ min (2, 2)`; in `idleThenDuel`
the partition of `duel` holds two requests with bounds 2 and 2, but the pass (visiting the
groups in insertion order) never leaves the partition of `idle`. -/
theorem process_partition_unmatched :
    (2 ≤ soloPair.m_queue.length ∧
      modePartition soloPair "solo" = [⟨1, "solo", 1, 1, 1⟩] ∧
      (1 : Int) ≤ min (((modePartition soloPair "solo").length : Nat) : Int) 1 ∧
      (process sampleEnv 2 soloPair).finished = true ∧
      (process sampleEnv 2 soloPair).created = []) ∧
    (modePartition (duelQueued (-1) 2) "duel"
        = [⟨1, "duel", -1, 2, 1⟩, ⟨2, "duel", -1, 2, 2⟩] ∧
      (-1 : Int) ≤ min (((modePartition (duelQueued (-1) 2) "duel").length : Nat) : Int) 2 ∧
      (process sampleEnv 2 (duelQueued (-1) 2)).finished = true ∧
      (process sampleEnv 2 (duelQueued (-1) 2)).created = []) ∧
    (modePartition idleThenDuel "duel" = [⟨3, "duel", 2, 2, 3⟩, ⟨4, "duel", 2, 2, 4⟩] ∧
      (2 : Int) ≤ min (((modePartition idleThenDuel "duel").length : Nat) : Int) 2 ∧
      ∀ fuel, (process sampleEnv fuel idleThenDuel).finished = false ∧
        ∀ m ∈ (process sampleEnv fuel idleThenDuel).created, m.gameMode ≠ "duel") :=
  ⟨by decide, by decide,
    ⟨by decide, by decide, fun fuel =>
      ⟨(idleThenDuel_stuck fuel).1, fun m hm h => by
        have := (idleThenDuel_stuck fuel).2 m hm
        rw [h] at this
        exact absurd this (by decide)⟩⟩⟩

/-- C11 (amended): let every queued request carry `int` bounds that are not both 0, and let
the pass be given at least as many loop iterations as there are queued requests. Then the pass
runs to its end, and for every game-mode partition of the registered players' requests that
holds at least 2 requests and whose oldest request `R` has
`0 ≤ R.minPlayers ≤ min (partition size, R.maxPlayers)`, a match of that game mode is created
whose members are exactly the players of the first `min (partition size, R.maxPlayers)`
requests of the partition, in queue order. That match is in the match table under its id when
the tokens of the pass are pairwise distinct, and each of its members is mapped, in the index
and in the registry record, to a match of the pass that lists the member. -/
theorem process_first_group (env : Env) (fuel : Nat) (s : MatchmakingSystem) (g : String)
    (R : MatchmakingRequest) (hhead : (modePartition s g).head? = some R)
    (hsize : 2 ≤ (modePartition s g).length) (hmin : 0 ≤ R.minPlayers)
    (hle : R.minPlayers ≤ min ((modePartition s g).length : Int) R.maxPlayers)
    (hint : ∀ r ∈ s.m_queue, IsInt r.minPlayers ∧ IsInt r.maxPlayers)
    (hnz : ∀ r ∈ s.m_queue, ¬ (r.minPlayers = 0 ∧ r.maxPlayers = 0))
    (hfuel : s.m_queue.length ≤ fuel) :
    (process env fuel s).finished = true ∧
    ∃ m ∈ (process env fuel s).created,
      m.gameMode = g ∧
      m.players
        = ((modePartition s g).take
            (min ((modePartition s g).length : Int) R.maxPlayers).toNat).map
            (fun r => r.playerId) ∧
      ((passTokens env fuel s).Nodup →
        (process env fuel s).sys.m_matches.find m.matchId = some m) ∧
      ∀ p ∈ m.players, ∃ m2 ∈ (process env fuel s).created, p ∈ m2.players ∧
        (process env fuel s).sys.m_playerToMatch.find p = some m2.matchId ∧
        (process env fuel s).sys.m_playerManager.getPlayer p
          = (s.m_playerManager.getPlayer p).map
              (fun r => { r with inMatch := true, currentMatchId := m2.matchId }) := by
  have hfin : (process env fuel s).finished = true := by
    apply process_finishes env fuel s hfuel
    intro r hr h
    obtain ⟨i1, i2⟩ := hint r hr
    exact hnz r hr ⟨(toSizeT_eq_zero_iff _ i1).1 h.1, (toSizeT_eq_zero_iff _ i2).1 h.2⟩
  have hR : R ∈ s.m_queue := by
    have h1 : R ∈ modePartition s g := List.mem_of_mem_head? hhead
    unfold modePartition at h1
    exact (List.mem_filter.1 h1).1
  have hmax : R.maxPlayers < 2 ^ 64 := by
    have h31 := (hint R hR).2.2
    have e1 : (2 : Int) ^ 64 = 18446744073709551616 := by norm_num
    have e2 : (2 : Int) ^ 31 = 2147483648 := by norm_num
    rw [e2] at h31
    rw [e1]
    omega
  obtain ⟨m, hm, hg, hp⟩ := first_group_of_finished env fuel s g R hhead hsize hmin hle hmax hfin
  exact ⟨hfin, m, hm, hg, hp, fun hnd => process_table_of_nodup env fuel s hnd m hm,
    process_members_mapped env fuel s m hm⟩

/-- Instance of C11 (amended): in `duelAndSquad` the partition of `duel` holds two requests
with bounds 2 and 2 and the partition of `squad` two requests that need 3 players; the pass
finishes, has created only `match0` with members 1 and 2, which is in the table, players 1
and 2 are mapped to it, and the requests of players 3 and 4 stay queued. -/
theorem process_first_group_witness :
    ((modePartition duelAndSquad "duel").head? = some ⟨1, "duel", 2, 2, 1⟩ ∧
      2 ≤ (modePartition duelAndSquad "duel").length ∧
      (∀ r ∈ duelAndSquad.m_queue, ¬ (r.minPlayers = 0 ∧ r.maxPlayers = 0)) ∧
      duelAndSquad.m_queue.length ≤ 4) ∧
    (process sampleEnv 4 duelAndSquad).finished = true ∧
    (process sampleEnv 4 duelAndSquad).created = [⟨"match0", [1, 2], "duel", 0, true⟩] ∧
    (process sampleEnv 4 duelAndSquad).sys.m_queue
      = [⟨3, "squad", 3, 4, 3⟩, ⟨4, "squad", 3, 4, 4⟩] ∧
    (process sampleEnv 4 duelAndSquad).sys.m_matches.find "match0"
      = some ⟨"match0", [1, 2], "duel", 0, true⟩ ∧
    (process sampleEnv 4 duelAndSquad).sys.m_playerToMatch.find 1 = some "match0" ∧
    ∃ m ∈ (process sampleEnv 4 duelAndSquad).created,
      m.gameMode = "duel" ∧
      m.players
        = ((modePartition duelAndSquad "duel").take
            (min ((modePartition duelAndSquad "duel").length : Int) 2).toNat).map
            (fun r => r.playerId) ∧
      ((passTokens sampleEnv 4 duelAndSquad).Nodup →
        (process sampleEnv 4 duelAndSquad).sys.m_matches.find m.matchId = some m) ∧
      ∀ p ∈ m.players, ∃ m2 ∈ (process sampleEnv 4 duelAndSquad).created, p ∈ m2.players ∧
        (process sampleEnv 4 duelAndSquad).sys.m_playerToMatch.find p = some m2.matchId ∧
        (process sampleEnv 4 duelAndSquad).sys.m_playerManager.getPlayer p
          = (duelAndSquad.m_playerManager.getPlayer p).map
              (fun r => { r with inMatch := true, currentMatchId := m2.matchId }) :=
  have h := process_first_group sampleEnv 4 duelAndSquad "duel" ⟨1, "duel", 2, 2, 1⟩
    (by decide) (by decide) (by decide) (by decide) (by unfold IsInt; decide) (by decide)
    (by decide)
  ⟨⟨by decide, by decide, by decide, by decide⟩, by decide, by decide, by decide, by decide,
    by decide, h.2⟩

end MatchmakingSystem

end GameServer
